import Mathlib

/-
  Verification development for the stream flow-control engine of this
  repository (annotated Node.js stream sources).

  Shallow embedding notes:
  * The Writable machine is translated from the Writable stream module
    (src/unnamed/part_004).  Machine integers are Nat; JS property reads
    and writes become record updates.
  * Observable behaviour (events emitted with stream.emit, user callback
    invocations, process.nextTick scheduling, calls into the _write or
    _writev consumer hooks) is recorded in an explicit trace and a FIFO
    tick queue inside the state, mirroring the single-threaded cooperative
    scheduling model of the source.
  * The consumer hook supplied by the stream implementer is modelled in
    two fidelity-preserving ways selected by the hookSync flag of the
    state: a synchronous consumer that invokes the onwrite completion
    before _write returns (hookSync = true), and an asynchronous consumer
    whose completion arrives later as an explicit consumerDone step
    (hookSync = false).  Both satisfy the write-step protocol of the
    source.
  * Transcription slips in this copy of the source that are ReferenceError
    crashes in strict-mode JS are modelled by the evident intent and
    flagged with a comment at the exact place, for example the call
    validChunk(this, stream, chunk, cb) in Writable.prototype.write,
    which names an unbound identifier where the parameter of validChunk
    is named state.
-/

namespace NodeStreams

/-- Encodings that occur on the write path of the source.  The source
uses the strings utf8 and buffer, and an empty string after an eager
string-to-buffer conversion on the readable side; the empty or absent
encoding is represented by an Option none at use sites. -/
inductive Enc
  | utf8
  | latin1
  | buffer
deriving DecidableEq, Repr

/-- Error values signalled by the modelled code paths, one constructor per
distinct error construction site in the source. -/
inductive ErrMsg
  | writeAfterEnd        -- new Error, write after end
  | writeNullChunk       -- TypeError, May not write null values to stream
  | invalidChunk         -- TypeError, Invalid non-string or buffer chunk
  | pushAfterEOF         -- Error, stream.push() after EOF
  | unshiftAfterEnd      -- Error, stream.unshift() after end event
  | noWritecb            -- Error, no writecb in Transform class
  | doneWsLength         -- Error, Calling transform done when ws.length != 0
  | doneTransforming     -- Error, Calling transform done when still transforming
deriving DecidableEq, Repr

/-- A chunk value handed to write or push: a byte buffer, a JS string
(as its list of unicode scalar values), an object-mode value tagged by a
number, null, or undefined. -/
inductive Chunk
  | buf (bytes : List Nat)
  | str (cps : List Nat)
  | objVal (tag : Nat)
  | nullC
  | undefC
deriving DecidableEq, Repr

/-- Modelled from the spec: the string-to-byte conversion performed by
Buffer.from(string, encoding) lives in the external buffer module, not in
src; the spec describes it as the string-to-byte conversion with utf8 as
the default encoding, so one unicode scalar value is expanded to its
UTF-8 bytes. -/
def utf8Enc (cp : Nat) : List Nat :=
  if cp < 0x80 then [cp]
  else if cp < 0x800 then [0xC0 + cp / 64, 0x80 + cp % 64]
  else if cp < 0x10000 then
    [0xE0 + cp / 4096, 0x80 + cp / 64 % 64, 0x80 + cp % 64]
  else
    [0xF0 + cp / 262144, 0x80 + cp / 4096 % 64, 0x80 + cp / 64 % 64, 0x80 + cp % 64]

/-- Byte list produced by Buffer.from on a JS string. -/
def bufferFrom (cps : List Nat) : List Nat :=
  cps.flatMap utf8Enc

/-- Length of a JS string in UTF-16 code units, the value of the length
property of a string. -/
def jsLen (cps : List Nat) : Nat :=
  cps.foldl (fun n cp => n + (if cp < 0x10000 then 1 else 2)) 0

/-- Length of a chunk as read by the source in non-object mode via the
length property.  Reading length of null or undefined would crash in JS;
the source only reaches this read for buffers and strings (and, for an
undefined chunk accepted by validChunk, would crash: no verified claim
exercises that corner), so the remaining constructors are given length 0
here and are never exercised by the theorems below. -/
def chunkLen : Chunk → Nat
  | .buf bytes => bytes.length
  | .str cps => jsLen cps
  | .objVal _ => 0
  | .nullC => 0
  | .undefC => 0

/-- A user-facing completion callback.  base none is the nop replacement
installed by the source when no callback is supplied; base (some i) is a
user callback identified by i; corked models the finish closure of a
CorkedRequest, which invokes the stored per-chunk callbacks one by one
(the free-list reuse of CorkedRequest objects is an allocation-level
optimisation with no observable effect and is not modelled). -/
inductive Cb
  | base (user : Option Nat)
  | corked (cbs : List (Option Nat))
deriving DecidableEq, Repr

/-- WriteReq from the source: chunk, encoding and completion callback of
one buffered write.  The singly linked chain (bufferedRequest head,
lastBufferedRequest tail) is represented as a Lean list, head = oldest. -/
structure WriteReq where
  chunk : Chunk
  encoding : Enc
  callback : Cb
deriving DecidableEq, Repr

/-- Observable events: emitted stream events, user callback invocations
and consumer-hook invocations, in program order. -/
inductive Ev
  | errorEv (e : ErrMsg)
  | drainEv
  | finishEv
  | prefinishEv
  | dataEv (c : Chunk)
  | hookWrite (c : Chunk) (e : Enc)
  | hookWritev (cs : List Chunk)
  | cbCall (user : Nat) (err : Option ErrMsg)
  | flushCall
deriving DecidableEq, Repr

/-- A task deferred with process.nextTick: a callback carrying an optional
error, a deferred afterWrite with its captured finished flag and callback,
or the deferred automatic end of the writable side of a half-open Duplex
(onEndNT). -/
inductive Tick
  | cbT (c : Cb) (err : Option ErrMsg)
  | afterWriteT (finished : Bool) (c : Cb)
  | onEndNT
deriving DecidableEq, Repr

/-- WritableState of the source plus the observation apparatus (trace,
tick queue, registered once-listeners of the finish event) and the two
static modelling parameters hookSync and hasWritev (presence of a _writev
implementation on the stream). -/
structure WritableState where
  objectMode : Bool
  highWaterMark : Nat
  needDrain : Bool
  ending : Bool
  ended : Bool
  finished : Bool
  decodeStrings : Bool
  defaultEncoding : Enc
  length : Nat
  writing : Bool
  corked : Nat
  sync : Bool
  bufferProcessing : Bool
  writecb : Option Cb
  writelen : Nat
  bufferedRequest : List WriteReq
  pendingcb : Nat
  prefinish : Bool
  errorEmitted : Bool
  bufferedRequestCount : Nat
  -- observation model
  trace : List Ev
  ticks : List Tick
  finishListeners : List Nat
  -- static modelling parameters
  hookSync : Bool
  hasWritev : Bool
deriving DecidableEq, Repr

/-- Construction options of a Writable stream, as read by the
WritableState constructor. -/
structure WOpts where
  objectMode : Bool
  highWaterMark : Option Nat
  decodeStrings : Bool
  defaultEncoding : Enc
  hookSync : Bool
  hasWritev : Bool
deriving DecidableEq, Repr

/-- The WritableState constructor of the source: defaults are 16 objects
or 16k bytes for the high-water mark, string decoding enabled, utf8
default encoding, everything idle.  The prefinish flag read and written
at runtime starts as an absent JS property (the constructor initialises a
dead field named prefinished), hence false. -/
def initW (o : WOpts) : WritableState :=
  { objectMode := o.objectMode
    highWaterMark := o.highWaterMark.getD (if o.objectMode then 16 else 16 * 1024)
    needDrain := false
    ending := false
    ended := false
    finished := false
    decodeStrings := o.decodeStrings
    defaultEncoding := o.defaultEncoding
    length := 0
    writing := false
    corked := 0
    sync := true
    bufferProcessing := false
    writecb := none
    writelen := 0
    bufferedRequest := []
    pendingcb := 0
    prefinish := false
    errorEmitted := false
    bufferedRequestCount := 0
    trace := []
    ticks := []
    finishListeners := []
    hookSync := o.hookSync
    hasWritev := o.hasWritev }

/-- Append an observable event to the trace. -/
def pushEv (w : WritableState) (e : Ev) : WritableState :=
  { w with trace := w.trace ++ [e] }

/-- Enqueue a process.nextTick task. -/
def pushTick (w : WritableState) (t : Tick) : WritableState :=
  { w with ticks := w.ticks ++ [t] }

/-- Invoke a user callback value with an optional error.  The nop
replacement produces no observation; the corked finish closure invokes the
stored callbacks one by one, decrementing pendingcb for each exactly as
the finish closure of CorkedRequest does. -/
def invokeCb (w : WritableState) (c : Cb) (err : Option ErrMsg) : WritableState :=
  match c with
  | .base none => w
  | .base (some i) => pushEv w (.cbCall i err)
  | .corked cbs =>
    cbs.foldl (fun w u =>
      let w := { w with pendingcb := w.pendingcb - 1 }
      match u with
      | none => w
      | some i => pushEv w (.cbCall i err)) w

/-- needFinish from the source: ending, empty accounting length, empty
buffered chain, not already finished, not mid-write. -/
def needFinish (w : WritableState) : Bool :=
  w.ending && w.length == 0 && w.bufferedRequest.isEmpty && !w.finished && !w.writing

/-- prefinish from the source: guarded by the runtime prefinish flag, set
the flag and emit the prefinish event once. -/
def prefinishF (w : WritableState) : WritableState :=
  if w.prefinish then w
  else pushEv { w with prefinish := true } .prefinishEv

/-- Emission of the finish event: the event facility dispatches the
registered once-listeners synchronously in registration order and removes
them. -/
def emitFinish (w : WritableState) : WritableState :=
  let w := pushEv w .finishEv
  let w := w.finishListeners.foldl (fun w i => pushEv w (.cbCall i none)) w
  { w with finishListeners := [] }

/-- finishMaybe from the source: when needFinish holds, either complete
the finish transition (pendingcb zero: prefinish, set finished, emit
finish) or only emit prefinish early. -/
def finishMaybe (w : WritableState) : WritableState :=
  if needFinish w then
    if w.pendingcb == 0 then
      let w := prefinishF w
      let w := { w with finished := true }
      emitFinish w
    else
      prefinishF w
  else w

/-- onwriteDrain from the source: emit drain when the accounting length is
zero and the needDrain flag is set, clearing the flag. -/
def onwriteDrain (w : WritableState) : WritableState :=
  if w.length == 0 && w.needDrain then
    pushEv { w with needDrain := false } .drainEv
  else w

/-- afterWrite from the source: possibly emit drain, decrement pendingcb,
invoke the preserved write callback, and try the finish transition. -/
def afterWrite (w : WritableState) (finished : Bool) (cb : Cb) : WritableState :=
  let w := if !finished then onwriteDrain w else w
  let w := { w with pendingcb := w.pendingcb - 1 }
  let w := invokeCb w cb none
  finishMaybe w

/-- onwriteStateUpdate from the source. -/
def onwriteStateUpdate (w : WritableState) : WritableState :=
  { w with writing := false, writecb := none, length := w.length - w.writelen, writelen := 0 }

/-- onwriteError from the source: decrement pendingcb, invoke the write
callback with the error (next tick if the failure was synchronous), mark
errorEmitted and emit the error. -/
def onwriteError (w : WritableState) (sync : Bool) (e : ErrMsg) (cb : Cb) : WritableState :=
  let w := { w with pendingcb := w.pendingcb - 1 }
  let w := if sync then pushTick w (.cbT cb (some e)) else invokeCb w cb (some e)
  let w := { w with errorEmitted := true }
  pushEv w (.errorEv e)

/-- Body of onwrite from the source, parametrised by the clearBuffer
continuation so that the variant invoked during buffer processing (where
the bufferProcessing guard makes the clearBuffer branch unreachable) can
be defined before clearBuffer itself.  The guard of the source is checked
in both variants. -/
def onwriteWith (doClear : WritableState → WritableState)
    (w : WritableState) (err : Option ErrMsg) : WritableState :=
  let sync := w.sync
  match w.writecb with
  | none => w   -- the write-step protocol guarantees one completion per doWrite
  | some cb =>
    let w := onwriteStateUpdate w
    match err with
    | some e => onwriteError w sync e cb
    | none =>
      let finished := needFinish w
      let w :=
        if !finished && w.corked == 0 && !w.bufferProcessing && !w.bufferedRequest.isEmpty then
          doClear w
        else w
      if sync then pushTick w (.afterWriteT finished cb)
      else afterWrite w finished cb

/-- onwrite as invoked from inside clearBuffer, where bufferProcessing is
true and the clearBuffer branch of the source is guarded out. -/
def onwriteNC (w : WritableState) (err : Option ErrMsg) : WritableState :=
  onwriteWith id w err

/-- decodeChunk from the source: convert a string chunk to a buffer when
not in object mode and string decoding is enabled. -/
def decodeChunk (w : WritableState) (c : Chunk) (e : Enc) : Chunk :=
  match c with
  | .str cps => if !w.objectMode && w.decodeStrings then .buf (bufferFrom cps) else c
  | _ => c

/-- Payload of one doWrite call: a single chunk with its encoding, or the
array of buffered requests passed to _writev. -/
inductive WritePayload
  | one (c : Chunk) (e : Enc)
  | many (reqs : List WriteReq)
deriving DecidableEq, Repr

/-- doWrite from the source, parametrised by the onwrite variant the
consumer hook completion runs: record writelen, writecb and the writing
and sync flags, invoke the consumer hook (recorded in the trace), run the
completion now when the modelled consumer is synchronous, then clear
sync. -/
def doWriteWith (onw : WritableState → Option ErrMsg → WritableState)
    (w : WritableState) (p : WritePayload) (len : Nat) (cb : Cb) : WritableState :=
  let w := { w with writelen := len, writecb := some cb, writing := true, sync := true }
  let w :=
    match p with
    | .one c e => pushEv w (.hookWrite c e)
    | .many reqs => pushEv w (.hookWritev (reqs.map (fun r => r.chunk)))
  let w := if w.hookSync then onw w none else w
  { w with sync := false }

/-- doWrite as invoked from inside clearBuffer. -/
def doWriteInner (w : WritableState) (p : WritePayload) (len : Nat) (cb : Cb) : WritableState :=
  doWriteWith onwriteNC w p len cb

/-- Slow path of clearBuffer: pass buffered chunks to _write one by one,
breaking out of the loop as soon as the writing flag remains set (the
drain-one-then-yield behaviour of the source), returning the entries still
buffered.  The bufferedRequest field of the state is left stale during
the loop exactly as in the source, which only reassigns it after the
loop. -/
def clearBufferSlow : List WriteReq → WritableState → List WriteReq × WritableState
  | [], w => ([], w)
  | e :: rest, w =>
    let len := if w.objectMode then 1 else chunkLen e.chunk
    let w := doWriteInner w (.one e.chunk e.encoding) len e.callback
    if w.writing then (rest, w) else clearBufferSlow rest w

/-- clearBuffer from the source: under the bufferProcessing flag, either
pass the whole chain to _writev as one batch (when a _writev is installed
and more than one request is buffered), with the finish closure of a
CorkedRequest as completion and one extra pendingcb for it, or run the
slow one-by-one loop. -/
def clearBuffer (w : WritableState) : WritableState :=
  let w := { w with bufferProcessing := true }
  let entries := w.bufferedRequest
  if w.hasWritev && decide (2 ≤ entries.length) then
    let cbs := entries.map (fun r =>
      match r.callback with
      | .base u => u
      | .corked _ => none)
    let w := doWriteInner w (.many entries) w.length (.corked cbs)
    let w := { w with pendingcb := w.pendingcb + 1 }
    { w with bufferedRequestCount := 0, bufferedRequest := [], bufferProcessing := false }
  else
    let r := clearBufferSlow entries w
    { r.2 with bufferedRequestCount := 0, bufferedRequest := r.1, bufferProcessing := false }

/-- onwrite at top level (outside buffer processing), with the clearBuffer
branch live. -/
def onwrite (w : WritableState) (err : Option ErrMsg) : WritableState :=
  onwriteWith clearBuffer w err

/-- doWrite as invoked from writeOrBuffer. -/
def doWriteTop (w : WritableState) (p : WritePayload) (len : Nat) (cb : Cb) : WritableState :=
  doWriteWith onwrite w p len cb

/-- writeOrBuffer from the source: decode, account the length, compute the
backpressure return value (length strictly below the high-water mark,
compared after the addition), set needDrain on a false return, then either
append a WriteReq to the buffered chain (mid-write or corked) or write
immediately. -/
def writeOrBuffer (w : WritableState) (c : Chunk) (e : Enc) (cb : Cb) : Bool × WritableState :=
  let c := decodeChunk w c e
  let e := match c with | .buf _ => Enc.buffer | _ => e
  let len := if w.objectMode then 1 else chunkLen c
  let w := { w with length := w.length + len }
  let ret := decide (w.length < w.highWaterMark)
  let w := if !ret then { w with needDrain := true } else w
  let w :=
    if w.writing || decide (0 < w.corked) then
      { w with bufferedRequest := w.bufferedRequest ++ [⟨c, e, cb⟩],
               bufferedRequestCount := w.bufferedRequestCount + 1 }
    else doWriteTop w (.one c e) len cb
  (ret, w)

/-- The error produced by validChunk: null chunks are always rejected, and
outside object mode anything that is not a buffer, string or undefined is
rejected. -/
def validChunkErr (objectMode : Bool) (c : Chunk) : Option ErrMsg :=
  match c with
  | .nullC => some .writeNullChunk
  | .buf _ => none
  | .str _ => none
  | .undefC => none
  | .objVal _ => if objectMode then none else some .invalidChunk

/-- writeAfterEnd from the source: emit the error and defer the completion
callback one tick carrying it. -/
def writeAfterEnd (w : WritableState) (cb : Cb) : WritableState :=
  let w := pushEv w (.errorEv .writeAfterEnd)
  pushTick w (.cbT cb (some .writeAfterEnd))

/-- Error half of validChunk from the source: emit the error and defer the
completion callback one tick carrying it. -/
def validChunkFail (w : WritableState) (e : ErrMsg) (cb : Cb) : WritableState :=
  let w := pushEv w (.errorEv e)
  pushTick w (.cbT cb (some e))

/-- Writable.prototype.write.  Argument shuffling of the (chunk, cb)
overload is resolved by the explicit Option encoding argument, and the
missing-callback case is the nop value Cb.base none.  Note: at this call
site the source passes the unbound identifier stream as the second
argument of validChunk (part_004 line 269); the parameter of validChunk is
named state and its body reads state.objectMode, so the evident intent,
modelled here, is validChunk(this, state, chunk, cb). -/
def write (w : WritableState) (c : Chunk) (encoding : Option Enc) (cb : Cb) :
    Bool × WritableState :=
  let e :=
    match c with
    | .buf _ => Enc.buffer
    | _ => encoding.getD w.defaultEncoding
  if w.ended then (false, writeAfterEnd w cb)
  else
    match validChunkErr w.objectMode c with
    | some er => (false, validChunkFail w er cb)
    | none =>
      let w := { w with pendingcb := w.pendingcb + 1 }
      writeOrBuffer w c e cb

/-- Writable.prototype.cork. -/
def cork (w : WritableState) : WritableState :=
  { w with corked := w.corked + 1 }

/-- Writable.prototype.uncork: decrement the cork level and flush the
buffered chain when idle, fully uncorked, unfinished, not already
processing the buffer, and non-empty. -/
def uncork (w : WritableState) : WritableState :=
  if decide (0 < w.corked) then
    let w := { w with corked := w.corked - 1 }
    if !w.writing && w.corked == 0 && !w.finished && !w.bufferProcessing
        && !w.bufferedRequest.isEmpty then
      clearBuffer w
    else w
  else w

/-- endWritable from the source: mark ending, try the finish transition,
then either defer the end completion one tick (the call itself finished
the stream) or register it as a once-listener of the finish event; finally
mark ended (the legacy writable flag is not modelled). -/
def endWritable (w : WritableState) (cb : Option Nat) : WritableState :=
  let w := { w with ending := true }
  let w := finishMaybe w
  let w :=
    match cb with
    | none => w
    | some i =>
      if w.finished then pushTick w (.cbT (.base (some i)) none)
      else { w with finishListeners := w.finishListeners ++ [i] }
  { w with ended := true }

/-- Writable.prototype.end.  Argument shuffling of the (cb) and
(chunk, cb) overloads is resolved by the explicit options; null and
undefined final chunks are the none case.  A provided final chunk is
written with the nop callback, a corked stream is fully uncorked, and
endWritable runs only when the stream is neither ending nor finished. -/
def endW (w : WritableState) (chunk : Option Chunk) (encoding : Option Enc)
    (cb : Option Nat) : WritableState :=
  let w :=
    match chunk with
    | some c => (write w c encoding (.base none)).2
    | none => w
  let w := if decide (0 < w.corked) then uncork { w with corked := 1 } else w
  if !w.ending && !w.finished then endWritable w cb else w

/-- Completion of an asynchronous consumer hook: the implementer invokes
the stored onwrite callback exactly once after the hook call, optionally
with an error.  A completion while no write is outstanding is outside the
write-step protocol and leaves the state unchanged. -/
def consumerDone (w : WritableState) (err : Option ErrMsg) : WritableState :=
  if w.writing then onwrite w err else w

/-- Run the oldest pending tick task: a deferred callback invocation, a
deferred afterWrite, or the deferred automatic end of the writable side of
a half-open Duplex (onEndNT calls self.end()). -/
def runTick (w : WritableState) : WritableState :=
  match w.ticks with
  | [] => w
  | t :: rest =>
    let w := { w with ticks := rest }
    match t with
    | .cbT c err => invokeCb w c err
    | .afterWriteT f c => afterWrite w f c
    | .onEndNT => endW w none none none

/-- Run n tick tasks. -/
def runTicks (w : WritableState) : Nat → WritableState
  | 0 => w
  | n + 1 => runTicks (runTick w) n

/-- One externally triggered operation on a Writable stream: the public
methods, a consumer-hook completion, or one turn of the cooperative tick
queue. -/
inductive Op
  | writeOp (c : Chunk) (encoding : Option Enc) (cb : Cb)
  | corkOp
  | uncorkOp
  | endOp (chunk : Option Chunk) (encoding : Option Enc) (cb : Option Nat)
  | consumerDoneOp (err : Option ErrMsg)
  | runTickOp
deriving DecidableEq, Repr

/-- Apply one operation to the state (the boolean result of write is not
part of the state evolution). -/
def applyOp (w : WritableState) : Op → WritableState
  | .writeOp c e cb => (write w c e cb).2
  | .corkOp => cork w
  | .uncorkOp => uncork w
  | .endOp c e cb => endW w c e cb
  | .consumerDoneOp err => consumerDone w err
  | .runTickOp => runTick w

/-- Apply a sequence of operations in order. -/
def applyOps (w : WritableState) : List Op → WritableState
  | [] => w
  | o :: rest => applyOps (applyOp w o) rest

/-- Number of prefinish events in a trace. -/
def prefC (l : List Ev) : Nat :=
  l.countP (fun e => decide (e = Ev.prefinishEv))

/-- Number of drain events in a trace. -/
def drainC (l : List Ev) : Nat :=
  l.countP (fun e => decide (e = Ev.drainEv))

/-- Number of hook invocations (consumer-hook calls) in a trace. -/
def hookEvs (l : List Ev) : List Ev :=
  l.filter (fun e =>
    match e with
    | .hookWrite _ _ => true
    | .hookWritev _ => true
    | _ => false)

/-- Number of invocations of user callback i in a trace. -/
def cbCount (l : List Ev) (i : Nat) : Nat :=
  l.countP (fun e =>
    match e with
    | .cbCall j _ => decide (j = i)
    | _ => false)

/-- Default construction options used by concrete scenarios: byte mode,
default high-water mark, synchronous consumer, no _writev. -/
def defaultOpts : WOpts :=
  { objectMode := false
    highWaterMark := none
    decodeStrings := true
    defaultEncoding := .utf8
    hookSync := true
    hasWritev := false }

/-- Accounting length a chunk contributes in writeOrBuffer: one in object
mode, otherwise the length of the decoded chunk.  The decode result does
not depend on the normalized encoding argument, so the default encoding
stands in for it. -/
def writeLen (w : WritableState) (c : Chunk) : Nat :=
  if w.objectMode then 1 else chunkLen (decodeChunk w c w.defaultEncoding)

/-- Issue a sequence of buffer writes with the nop callback. -/
def writeBufs (w : WritableState) : List (List Nat) → WritableState
  | [] => w
  | bs :: rest => writeBufs (write w (.buf bs) none (.base none)).2 rest

/-- Call cork n times. -/
def corkN (w : WritableState) : Nat → WritableState
  | 0 => w
  | n + 1 => corkN (cork w) n

/-- Call uncork n times. -/
def uncorkN (w : WritableState) : Nat → WritableState
  | 0 => w
  | n + 1 => uncorkN (uncork w) n

/-- Options of the C2 scenario: high-water mark 10, asynchronous
consumer. -/
def hwm10Opts : WOpts :=
  { defaultOpts with highWaterMark := some 10, hookSync := false }

/-- Options with a _writev batch consumer installed. -/
def writevOpts : WOpts :=
  { defaultOpts with hasWritev := true }

/-- Options of the drain counterexample: high-water mark 1, asynchronous
consumer. -/
def hwm1Opts : WOpts :=
  { defaultOpts with highWaterMark := some 1, hookSync := false }

/-- Final state of the drain counterexample run: a two-byte write against
high-water mark 1 (returning false), then end, then the consumer
completion. -/
def c4end : WritableState :=
  consumerDone
    (endW (write (initW hwm1Opts) (.buf [1, 2]) none (.base (some 1))).2 none none none)
    none

/-- Recognises a deferred-callback tick. -/
def cbTickOnly : Tick → Bool
  | .cbT _ _ => true
  | .afterWriteT _ _ => false
  | .onEndNT => false

/-- Quiescent-finished predicate: the sink has finished (and hence ended),
no write is outstanding, and only deferred callbacks remain on the tick
queue.  From such a state no operation can ever emit a drain event. -/
def QInv (w : WritableState) : Bool :=
  w.finished && w.ended && !w.writing && w.ticks.all cbTickOnly

/-- The lifecycle invariant of the Writable machine: a finished sink is
ending and ended with empty accounting length, empty buffered chain and no
write in flight; an ending sink is ended; the runtime prefinish flag
mirrors the number of emitted prefinish events (zero before, exactly one
after); and a finished sink carries the prefinish flag. -/
def GInv (w : WritableState) : Prop :=
  (w.finished = true → w.ending = true ∧ w.ended = true ∧ w.length = 0
      ∧ w.bufferedRequest = [] ∧ w.writing = false)
  ∧ (w.ending = true → w.ended = true)
  ∧ (w.prefinish = false → prefC w.trace = 0)
  ∧ (w.prefinish = true → prefC w.trace = 1)
  ∧ (w.finished = true → w.prefinish = true)

/-- Construction options of a Readable stream, as read by the
ReadableState constructor of the source (src/unnamed/part_001). -/
structure ROpts where
  objectMode : Bool
  highWaterMark : Option Nat
  defaultEncoding : Enc
  encoding : Option Enc
deriving DecidableEq, Repr

/-- ReadableState of the source restricted to the fields readableAddChunk
reads or writes, plus the observation trace.  flowing starts as the JS
null (none here); a string decoder is installed exactly when the
construction options carry an encoding.  The constructor statement
this.objectMode = !!objectMode names an unbound identifier in this copy
(part_001 line 48), a transcription slip modelled by the evident intent
options.objectMode. -/
structure ReadableState where
  objectMode : Bool
  highWaterMark : Nat
  buffer : List Chunk
  length : Nat
  flowing : Option Bool
  ended : Bool
  endEmitted : Bool
  reading : Bool
  sync : Bool
  defaultEncoding : Enc
  decoder : Bool
  encoding : Option Enc
  rtrace : List Ev
deriving DecidableEq, Repr

/-- The ReadableState constructor of the source: empty buffer, flowing
null, nothing ended, sync set, defaults of 16 objects or 16k bytes for the
high-water mark. -/
def initR (o : ROpts) : ReadableState :=
  { objectMode := o.objectMode
    highWaterMark := o.highWaterMark.getD (if o.objectMode then 16 else 16 * 1024)
    buffer := []
    length := 0
    flowing := none
    ended := false
    endEmitted := false
    reading := false
    sync := true
    defaultEncoding := o.defaultEncoding
    decoder := o.encoding.isSome
    encoding := o.encoding
    rtrace := [] }

/-- Append an observable event to the readable trace. -/
def pushREv (st : ReadableState) (e : Ev) : ReadableState :=
  { st with rtrace := st.rtrace ++ [e] }

/-- Modelled from the spec: chunk validation of the Source.  The function
chunkInvalid called at part_001 line 151 is not part of this copy of the
source; the spec (failure semantics of the Source) says an invalid chunk
type is anything but bytes, text or the nil sentinel in non-object mode,
while object mode accepts any value. -/
def chunkInvalid (st : ReadableState) (c : Chunk) : Option ErrMsg :=
  if st.objectMode then none
  else
    match c with
    | .buf _ => none
    | .str _ => none
    | .nullC => none
    | .undefC => none
    | .objVal _ => some .invalidChunk

/-- Modelled from the spec: end-of-data handling of the nil sentinel.  The
function onEofChunk called at part_001 line 157 is not part of this copy;
the spec says the nil sentinel marks ended, while the terminal end signal
is emitted separately once the buffer is fully drained, so endEmitted is
untouched here. -/
def onEofChunk (st : ReadableState) : ReadableState :=
  if st.ended then st else { st with ended := true }

/-- Modelled from the spec: the decode step of an installed decoder.  The
external string-decoder module is outside this repository; the spec says a
pushed byte chunk is first passed through the decoder into text.  The
precise code-unit mapping is not exercised by any claim below; bytes carry
over one to one. -/
def decoderWrite : Chunk → Chunk
  | .buf bs => .str bs
  | c => c

/-- Modelled from the spec: a zero-length read.  The read entry point is
not part of this copy of the source (part_001 has no Readable read
method); on the flowing fast path it is called right after the data signal
with an empty buffer, where the spec gives it nothing to dequeue and no
data signal to emit; the demand-rearming flags it toggles are outside the
state modelled here, so it acts as the identity.  No theorem below
exercises the flowing fast path. -/
def readR0 (st : ReadableState) : ReadableState :=
  st

/-- readableAddChunk from the source (part_001 lines 150-188).  The
chunk-accepting else branch at lines 182-184 is literally empty in this
copy: a chunk that passes every check in non-flowing mode (or with data
buffered, or during a synchronous producer call) is dropped without being
appended to the buffer, so no branch of this function ever grows the
buffer.  The source function returns no value; the state is the
observable result. -/
def readableAddChunk (st : ReadableState) (chunk : Chunk) (encoding : Option Enc)
    (addToFront : Bool) : ReadableState :=
  match chunkInvalid st chunk with
  | some er => pushREv st (.errorEv er)
  | none =>
    if chunk = Chunk.nullC then
      onEofChunk { st with reading := false }
    else if st.objectMode || decide (0 < chunkLen chunk) then
      if st.ended && !addToFront then
        pushREv st (.errorEv .pushAfterEOF)
      else if st.endEmitted && addToFront then
        pushREv st (.errorEv .unshiftAfterEnd)
      else
        let dec := st.decoder && !addToFront && encoding.isNone
        let chunk := if dec then decoderWrite chunk else chunk
        let skipAdd := dec && (!st.objectMode && chunkLen chunk == 0)
        let st := if !addToFront then { st with reading := false } else st
        if !skipAdd then
          if (st.flowing == some true) && st.length == 0 && !st.sync then
            readR0 (pushREv st (.dataEv chunk))
          else
            st
        else st
    else st

/-- Readable push from the source: outside object mode a string chunk
whose resolved encoding differs from the installed one is eagerly
converted to a buffer and the encoding cleared, then readableAddChunk runs
with addToFront false. -/
def pushR (st : ReadableState) (chunk : Chunk) (encoding : Option Enc) :
    ReadableState :=
  match chunk with
  | .str cps =>
    if !st.objectMode then
      let e := encoding.getD st.defaultEncoding
      if some e ≠ st.encoding then
        readableAddChunk st (.buf (bufferFrom cps)) none false
      else
        readableAddChunk st (.str cps) (some e) false
    else
      readableAddChunk st chunk encoding false
  | _ => readableAddChunk st chunk encoding false

/-- Readable unshift from the source: readableAddChunk with the empty
encoding and addToFront true. -/
def unshiftR (st : ReadableState) (chunk : Chunk) : ReadableState :=
  readableAddChunk st chunk none true

/-- Default readable construction options for concrete scenarios. -/
def defaultROpts : ROpts :=
  { objectMode := false
    highWaterMark := none
    defaultEncoding := .utf8
    encoding := none }

/-- Duplex stream state as seen by the onend listener (src/tty.js Duplex
section): the writable half and the allowHalfOpen flag.  The listener
reads nothing of the readable half, its firing being the readable end
event itself. -/
structure DuplexS where
  allowHalfOpen : Bool
  ws : WritableState
deriving DecidableEq, Repr

/-- The allowHalfOpen flag computed by the Duplex constructor: true by
default, false exactly when the options carry allowHalfOpen set to
false. -/
def duplexAllowHalfOpen : Option Bool → Bool
  | some false => false
  | _ => true

/-- onend from the source: the once-listener of the readable end event.
When half open is allowed, or the writable side has already ended, it
returns at once; otherwise it defers onEndNT (which calls self.end())
with process.nextTick, never ending the writable side synchronously. -/
def onend (d : DuplexS) : DuplexS :=
  if d.allowHalfOpen || d.ws.ended then d
  else { d with ws := pushTick d.ws .onEndNT }

/-- One turn of the tick queue on a Duplex: tick tasks act on the writable
half, runTick executing a deferred onEndNT as self.end(). -/
def runTickD (d : DuplexS) : DuplexS :=
  { d with ws := runTick d.ws }

/-- Transform stream state as read by done (src/tty.js Transform section):
the accounting length of the writable half, the in-flight flag spelled
Transforming as every assignment in this copy spells it (the TransformState
constructor, the read method and afterTransform), the chunks pushed to the
readable half (none being the end-of-data marker) and the event trace. -/
structure TransformS where
  wsLength : Nat
  Transforming : Bool
  pushed : List (Option Chunk)
  ttrace : List Ev
deriving DecidableEq, Repr

/-- The in-flight check of done reads the property spelled transforming
with a lowercase t (src/tty.js line 327).  No statement of this copy ever
assigns that property - the constructor, the read method and
afterTransform all write Transforming with a capital T - so in JS the
read yields undefined and the check is constantly false, whatever the
real in-flight flag holds. -/
def tsTransformingRead (_t : TransformS) : Bool :=
  false

/-- Append an observable event to the transform trace. -/
def pushTEv (t : TransformS) (e : Ev) : TransformS :=
  { t with ttrace := t.ttrace ++ [e] }

/-- Result of done: normal completion or a thrown internal-consistency
error. -/
inductive DoneRes
  | ok
  | threw (e : ErrMsg)
deriving DecidableEq, Repr

/-- done from the source (src/tty.js lines 308-333): propagate a flush
error as a stream error and stop; push trailing data to the readable
half; throw when the writable accounting length is nonzero; throw when
the lowercase in-flight check fires (dead, see tsTransformingRead);
otherwise seal the readable half with the end-of-data marker. -/
def doneT (t : TransformS) (err : Option ErrMsg) (data : Option Chunk) :
    DoneRes × TransformS :=
  match err with
  | some e => (.ok, pushTEv t (.errorEv e))
  | none =>
    let t :=
      match data with
      | some d => { t with pushed := t.pushed ++ [some d] }
      | none => t
    if t.wsLength ≠ 0 then (.threw .doneWsLength, t)
    else if tsTransformingRead t then (.threw .doneTransforming, t)
    else (.ok, { t with pushed := t.pushed ++ [none] })

/-- The prefinish once-listener of the Transform constructor (src/tty.js
lines 235-243): with a user flush step, invoke it once and feed its
callback result to done; without one, call done with no error and no
data. -/
def prefinishListener (t : TransformS)
    (flush : Option (Option ErrMsg × Option Chunk)) : DoneRes × TransformS :=
  match flush with
  | some r => doneT (pushTEv t .flushCall) r.1 r.2
  | none => doneT t none none

end NodeStreams

namespace NodeStreams

/-- C1: a write on an ended sink emits the write-after-end error on the
error channel, schedules the completion callback for the next scheduler
tick carrying that error, enqueues no chunk (buffered chain, accounting
length and pending-callback counter untouched) and returns false. -/
theorem writable_write_after_end (w : WritableState) (c : Chunk) (e : Option Enc) (cb : Cb)
    (h : w.ended = true) :
    (write w c e cb).1 = false
    ∧ (write w c e cb).2.trace = w.trace ++ [Ev.errorEv ErrMsg.writeAfterEnd]
    ∧ (write w c e cb).2.ticks = w.ticks ++ [Tick.cbT cb (some ErrMsg.writeAfterEnd)]
    ∧ (write w c e cb).2.bufferedRequest = w.bufferedRequest
    ∧ (write w c e cb).2.length = w.length
    ∧ (write w c e cb).2.pendingcb = w.pendingcb := by
  unfold write writeAfterEnd pushEv pushTick
  rw [h]
  exact ⟨rfl, rfl, rfl, rfl, rfl, rfl⟩

/-- Closed instance of writable_write_after_end at a concrete ended
sink. -/
theorem writable_write_after_end_witness :
    (endW (initW defaultOpts) none none none).ended = true
    ∧ ((write (endW (initW defaultOpts) none none none) (.buf [1]) none (.base (some 3))).1 = false
      ∧ (write (endW (initW defaultOpts) none none none) (.buf [1]) none (.base (some 3))).2.trace
          = (endW (initW defaultOpts) none none none).trace ++ [Ev.errorEv ErrMsg.writeAfterEnd]
      ∧ (write (endW (initW defaultOpts) none none none) (.buf [1]) none (.base (some 3))).2.ticks
          = (endW (initW defaultOpts) none none none).ticks
            ++ [Tick.cbT (.base (some 3)) (some ErrMsg.writeAfterEnd)]
      ∧ (write (endW (initW defaultOpts) none none none) (.buf [1]) none (.base (some 3))).2.bufferedRequest
          = (endW (initW defaultOpts) none none none).bufferedRequest
      ∧ (write (endW (initW defaultOpts) none none none) (.buf [1]) none (.base (some 3))).2.length
          = (endW (initW defaultOpts) none none none).length
      ∧ (write (endW (initW defaultOpts) none none none) (.buf [1]) none (.base (some 3))).2.pendingcb
          = (endW (initW defaultOpts) none none none).pendingcb) :=
  ⟨by rfl, writable_write_after_end (endW (initW defaultOpts) none none none)
    (.buf [1]) none (.base (some 3)) (by rfl)⟩

/-- C2: an accepted write returns the comparison of the pending length
against the high-water mark taken after the new length was added; in the
concrete scenario with high-water mark 10 and an empty sink, a 6-byte
write returns true and an immediately following 6-byte write returns
false. -/
theorem writable_write_return_highWaterMark (w : WritableState) (c : Chunk)
    (e : Option Enc) (cb : Cb)
    (hend : w.ended = false) (hvalid : validChunkErr w.objectMode c = none) :
    (write w c e cb).1 = decide (w.length + writeLen w c < w.highWaterMark)
    ∧ (write (initW hwm10Opts) (.buf [1, 2, 3, 4, 5, 6]) none (.base (some 1))).1 = true
    ∧ (write (write (initW hwm10Opts) (.buf [1, 2, 3, 4, 5, 6]) none (.base (some 1))).2
        (.buf [7, 8, 9, 10, 11, 12]) none (.base (some 2))).1 = false := by
  refine ⟨?_, by rfl, by rfl⟩
  unfold write writeOrBuffer writeLen
  rw [hend, hvalid]
  rfl

/-- Closed instance of writable_write_return_highWaterMark at a concrete
fresh sink. -/
theorem writable_write_return_highWaterMark_witness :
    (initW hwm10Opts).ended = false
    ∧ validChunkErr (initW hwm10Opts).objectMode (.buf [1, 2, 3]) = none
    ∧ ((write (initW hwm10Opts) (.buf [1, 2, 3]) none (.base (some 1))).1
        = decide ((initW hwm10Opts).length + writeLen (initW hwm10Opts) (.buf [1, 2, 3])
            < (initW hwm10Opts).highWaterMark)
      ∧ (write (initW hwm10Opts) (.buf [1, 2, 3, 4, 5, 6]) none (.base (some 1))).1 = true
      ∧ (write (write (initW hwm10Opts) (.buf [1, 2, 3, 4, 5, 6]) none (.base (some 1))).2
          (.buf [7, 8, 9, 10, 11, 12]) none (.base (some 2))).1 = false) :=
  ⟨by rfl, by rfl,
    writable_write_return_highWaterMark (initW hwm10Opts) (.buf [1, 2, 3]) none
      (.base (some 1)) (by rfl) (by rfl)⟩

end NodeStreams

namespace NodeStreams

/-- Characterization of a write of a byte buffer while the sink is
mid-write or corked: the request is appended to the buffered chain, the
accounting length grows, pendingcb is incremented, and needDrain is set
when the new length reaches the high-water mark. -/
theorem write_buf_corked (w : WritableState) (bs : List Nat) (cb : Cb)
    (hend : w.ended = false) (hObj : w.objectMode = false)
    (hbc : (w.writing || decide (0 < w.corked)) = true) :
    (write w (.buf bs) none cb).2 =
      (if decide (w.length + bs.length < w.highWaterMark) then
        { w with pendingcb := w.pendingcb + 1, length := w.length + bs.length,
                 bufferedRequest := w.bufferedRequest ++ [⟨.buf bs, .buffer, cb⟩],
                 bufferedRequestCount := w.bufferedRequestCount + 1 }
      else
        { w with pendingcb := w.pendingcb + 1, length := w.length + bs.length,
                 needDrain := true,
                 bufferedRequest := w.bufferedRequest ++ [⟨.buf bs, .buffer, cb⟩],
                 bufferedRequestCount := w.bufferedRequestCount + 1 }) := by
  unfold write writeOrBuffer
  rw [hend]
  dsimp only [validChunkErr, decodeChunk, chunkLen]
  rw [hObj]
  simp only [Bool.false_eq_true, if_false,
    apply_ite WritableState.writing, apply_ite WritableState.corked, ite_self]
  rw [hbc]
  by_cases hr : w.length + bs.length < w.highWaterMark
  · simp [hr]
  · simp [hr]

/-- A sequence of buffer writes issued while corked emits nothing,
schedules nothing, leaves the control flags unchanged, and appends the
requests to the buffered chain in issue order. -/
theorem writeBufs_corked (cs : List (List Nat)) (w : WritableState)
    (hend : w.ended = false) (hObj : w.objectMode = false)
    (hw : w.writing = false) (hc : 0 < w.corked) :
    (writeBufs w cs).trace = w.trace
    ∧ (writeBufs w cs).ticks = w.ticks
    ∧ (writeBufs w cs).writing = false
    ∧ (writeBufs w cs).corked = w.corked
    ∧ (writeBufs w cs).ended = false
    ∧ (writeBufs w cs).objectMode = false
    ∧ (writeBufs w cs).finished = w.finished
    ∧ (writeBufs w cs).bufferProcessing = w.bufferProcessing
    ∧ (writeBufs w cs).hookSync = w.hookSync
    ∧ (writeBufs w cs).hasWritev = w.hasWritev
    ∧ (writeBufs w cs).bufferedRequest
        = w.bufferedRequest ++ cs.map (fun bs => ⟨.buf bs, .buffer, .base none⟩) := by
  induction cs generalizing w with
  | nil => exact ⟨rfl, rfl, hw, rfl, hend, hObj, rfl, rfl, rfl, rfl, by simp [writeBufs]⟩
  | cons bs rest ih =>
    have hbc : (w.writing || decide (0 < w.corked)) = true := by
      simp [hw]
      omega
    unfold writeBufs
    rw [write_buf_corked w bs (.base none) hend hObj hbc]
    split
    · obtain ⟨h1, h2, h3, h4, h5, h6, h7, h8, h9, h10, h11⟩ :=
        ih { w with pendingcb := w.pendingcb + 1, length := w.length + bs.length,
                    bufferedRequest := w.bufferedRequest ++ [⟨.buf bs, .buffer, .base none⟩],
                    bufferedRequestCount := w.bufferedRequestCount + 1 }
          hend hObj hw hc
      refine ⟨h1, h2, h3, h4, h5, h6, h7, h8, h9, h10, ?_⟩
      rw [h11]
      simp
    · obtain ⟨h1, h2, h3, h4, h5, h6, h7, h8, h9, h10, h11⟩ :=
        ih { w with pendingcb := w.pendingcb + 1, length := w.length + bs.length,
                    needDrain := true,
                    bufferedRequest := w.bufferedRequest ++ [⟨.buf bs, .buffer, .base none⟩],
                    bufferedRequestCount := w.bufferedRequestCount + 1 }
          hend hObj hw hc
      refine ⟨h1, h2, h3, h4, h5, h6, h7, h8, h9, h10, ?_⟩
      rw [h11]
      simp

/-- Cork increments the cork level and nothing else. -/
theorem corkN_adds (m : Nat) (w : WritableState) :
    corkN w m = { w with corked := w.corked + m } := by
  induction m generalizing w with
  | zero => simp [corkN]
  | succ n ih =>
    unfold corkN cork
    rw [ih]
    have : w.corked + 1 + n = w.corked + (n + 1) := by omega
    simp [this]

/-- An uncork that leaves the cork level positive only decrements it. -/
theorem uncork_noflush (w : WritableState) (h2 : 2 ≤ w.corked) :
    uncork w = { w with corked := w.corked - 1 } := by
  unfold uncork
  have hc : decide (0 < w.corked) = true := decide_eq_true (by omega)
  rw [hc]
  simp only [if_true]
  have hz : ((w.corked - 1 == 0) : Bool) = false := by
    simp only [beq_eq_false_iff_ne, ne_eq]
    omega
  simp only [hz, Bool.and_false, Bool.false_and, Bool.false_eq_true, if_false]

/-- Uncorking down to a still positive cork level is a pure counter
decrement. -/
theorem uncorkN_noflush (k : Nat) (w : WritableState) (h : k < w.corked) :
    uncorkN w k = { w with corked := w.corked - k } := by
  induction k generalizing w with
  | zero => simp [uncorkN]
  | succ n ih =>
    unfold uncorkN
    rw [uncork_noflush w (by omega)]
    rw [ih { w with corked := w.corked - 1 } (by simp; omega)]
    have : w.corked - 1 - n = w.corked - (n + 1) := by omega
    simp [this]

end NodeStreams

namespace NodeStreams

/-- Characterization of one doWrite through the synchronous consumer on a
single chunk: the hook invocation is recorded, the completion runs inline
(accounting length reduced, writing cleared) and afterWrite is deferred to
the tick queue with the captured needFinish value. -/
theorem doWriteInner_one_sync (w : WritableState) (c : Chunk) (e : Enc) (len : Nat) (cb : Cb)
    (hs : w.hookSync = true) :
    doWriteInner w (.one c e) len cb =
      { w with writelen := 0, writecb := none, writing := false, sync := false,
               length := w.length - len,
               trace := w.trace ++ [.hookWrite c e],
               ticks := w.ticks ++ [.afterWriteT
                 (w.ending && (w.length - len == 0) && w.bufferedRequest.isEmpty && !w.finished) cb] } := by
  unfold doWriteInner doWriteWith onwriteNC onwriteWith onwriteStateUpdate pushEv pushTick needFinish
  dsimp only
  rw [hs]
  simp only [if_true, id_eq, ite_self, Bool.not_false, Bool.and_true]

/-- Characterization of one doWrite through the synchronous consumer on a
request batch, as issued by the _writev fast path. -/
theorem doWriteInner_many_sync (w : WritableState) (reqs : List WriteReq) (len : Nat) (cb : Cb)
    (hs : w.hookSync = true) :
    doWriteInner w (.many reqs) len cb =
      { w with writelen := 0, writecb := none, writing := false, sync := false,
               length := w.length - len,
               trace := w.trace ++ [.hookWritev (reqs.map (fun r => r.chunk))],
               ticks := w.ticks ++ [.afterWriteT
                 (w.ending && (w.length - len == 0) && w.bufferedRequest.isEmpty && !w.finished) cb] } := by
  unfold doWriteInner doWriteWith onwriteNC onwriteWith onwriteStateUpdate pushEv pushTick needFinish
  dsimp only
  rw [hs]
  simp only [if_true, id_eq, ite_self, Bool.not_false, Bool.and_true]

/-- The slow path loop of clearBuffer under the synchronous consumer
drains every entry: each round completes synchronously, so the
drain-one-then-yield break never fires, the hook sees every chunk in
order, and nothing is left buffered. -/
theorem clearBufferSlow_sync (entries : List WriteReq) (w : WritableState)
    (hs : w.hookSync = true) (hw : w.writing = false) :
    (clearBufferSlow entries w).1 = []
    ∧ (clearBufferSlow entries w).2.trace
        = w.trace ++ entries.map (fun r => Ev.hookWrite r.chunk r.encoding)
    ∧ (clearBufferSlow entries w).2.writing = false
    ∧ (clearBufferSlow entries w).2.hookSync = true := by
  induction entries generalizing w with
  | nil => exact ⟨rfl, by simp [clearBufferSlow], hw, hs⟩
  | cons e rest ih =>
    unfold clearBufferSlow
    dsimp only
    rw [doWriteInner_one_sync w e.chunk e.encoding
      (if w.objectMode then 1 else chunkLen e.chunk) e.callback hs]
    dsimp only
    simp only [Bool.false_eq_true, if_false]
    obtain ⟨h1, h2, h3, h4⟩ := ih
      { w with writelen := 0, writecb := none, writing := false, sync := false,
               length := w.length - (if w.objectMode then 1 else chunkLen e.chunk),
               trace := w.trace ++ [.hookWrite e.chunk e.encoding],
               ticks := w.ticks ++ [.afterWriteT
                 (w.ending
                   && (w.length - (if w.objectMode then 1 else chunkLen e.chunk) == 0)
                   && w.bufferedRequest.isEmpty && !w.finished) e.callback] }
      hs rfl
    refine ⟨h1, ?_, h3, h4⟩
    rw [h2]
    simp

/-- clearBuffer without a _writev implementation, under the synchronous
consumer: the whole buffered chain is passed to the hook one chunk at a
time in order and the chain empties. -/
theorem clearBuffer_sync_slowpath (w : WritableState)
    (hs : w.hookSync = true) (hw : w.writing = false) (hwv : w.hasWritev = false) :
    (clearBuffer w).trace
      = w.trace ++ w.bufferedRequest.map (fun r => Ev.hookWrite r.chunk r.encoding)
    ∧ (clearBuffer w).bufferedRequest = []
    ∧ (clearBuffer w).writing = false := by
  unfold clearBuffer
  dsimp only
  rw [hwv]
  simp only [Bool.false_and, Bool.false_eq_true, if_false]
  obtain ⟨h1, h2, h3, h4⟩ :=
    clearBufferSlow_sync w.bufferedRequest
      { w with bufferProcessing := true, hasWritev := false } hs hw
  exact ⟨h2, h1, h3⟩

/-- clearBuffer with a _writev implementation and at least two buffered
requests, under the synchronous consumer: the whole chain goes to the hook
as one batch in order and the chain empties. -/
theorem clearBuffer_sync_writev (w : WritableState)
    (hs : w.hookSync = true) (hwv : w.hasWritev = true)
    (h2 : 2 ≤ w.bufferedRequest.length) :
    (clearBuffer w).trace
      = w.trace ++ [Ev.hookWritev (w.bufferedRequest.map (fun r => r.chunk))]
    ∧ (clearBuffer w).bufferedRequest = [] := by
  unfold clearBuffer
  dsimp only
  rw [hwv]
  simp only [Bool.true_and, decide_eq_true h2, eq_self_iff_true, if_true]
  rw [doWriteInner_many_sync { w with bufferProcessing := true, hasWritev := true }
    w.bufferedRequest w.length
    (.corked (w.bufferedRequest.map (fun r =>
      match r.callback with
      | .base u => u
      | .corked _ => none))) hs]
  exact ⟨rfl, trivial⟩

/-- The uncork that brings the cork level from one to zero on an idle,
unfinished sink with a non-empty buffered chain flushes the chain. -/
theorem uncork_flush (w : WritableState) (h1 : w.corked = 1) (hw : w.writing = false)
    (hf : w.finished = false) (hb : w.bufferProcessing = false)
    (hne : w.bufferedRequest.isEmpty = false) :
    uncork w = clearBuffer { w with corked := 0 } := by
  unfold uncork
  have hc : decide (0 < w.corked) = true := decide_eq_true (by omega)
  rw [hc]
  simp [hw, hf, hb, hne, h1]

end NodeStreams

namespace NodeStreams

/-- A trace consisting solely of single-chunk hook invocations is its own
hook-event projection. -/
theorem hookEvs_map_hookWrite (cs : List (List Nat)) :
    hookEvs (cs.map (fun bs => Ev.hookWrite (.buf bs) .buffer))
      = cs.map (fun bs => Ev.hookWrite (.buf bs) .buffer) := by
  induction cs with
  | nil => rfl
  | cons a t ih =>
    simp only [List.map_cons, hookEvs, List.filter_cons_of_pos]
    simp only [hookEvs] at ih
    rw [ih]

/-- C3: writes issued while the cork level is positive reach the consumer
hook zero times, both right after the writes and after every uncork but
the matching last one; the uncork that returns the cork level to zero
(sink idle, unfinished, queue of n buffered chunks non-empty) delivers all
n chunks to the consumer hook in issue order, through _write one at a
time, or through _writev as one batch in issue order when a batch hook is
installed and more than one chunk is queued. -/
theorem writable_cork_uncork_delivery (cs : List (List Nat)) (m : Nat)
    (hne : cs ≠ []) (hm : 0 < m) :
    (hookEvs (writeBufs (corkN (initW defaultOpts) m) cs).trace = []
      ∧ hookEvs (uncorkN (writeBufs (corkN (initW defaultOpts) m) cs) (m - 1)).trace = []
      ∧ hookEvs (uncork (uncorkN (writeBufs (corkN (initW defaultOpts) m) cs) (m - 1))).trace
          = cs.map (fun bs => Ev.hookWrite (.buf bs) .buffer)
      ∧ (uncork (uncorkN (writeBufs (corkN (initW defaultOpts) m) cs) (m - 1))).bufferedRequest = [])
    ∧ (2 ≤ cs.length →
        hookEvs (uncork (uncorkN (writeBufs (corkN (initW writevOpts) m) cs) (m - 1))).trace
          = [Ev.hookWritev (cs.map Chunk.buf)]) := by
  constructor
  · rw [corkN_adds]
    obtain ⟨t1, t2, t3, t4, t5, t6, t7, t8, t9, t10, t11⟩ :=
      writeBufs_corked cs { initW defaultOpts with corked := (initW defaultOpts).corked + m }
        rfl rfl rfl (by show 0 < 0 + m; omega)
    have htr : (writeBufs { initW defaultOpts with
        corked := (initW defaultOpts).corked + m } cs).trace = [] := t1.trans rfl
    have hW1c : (writeBufs { initW defaultOpts with
        corked := (initW defaultOpts).corked + m } cs).corked = m := by
      rw [t4]
      show 0 + m = m
      omega
    have hun := uncorkN_noflush (m - 1)
      (writeBufs { initW defaultOpts with corked := (initW defaultOpts).corked + m } cs)
      (by rw [hW1c]; omega)
    have hc1 : (writeBufs { initW defaultOpts with
          corked := (initW defaultOpts).corked + m } cs).corked - (m - 1) = 1 := by
      rw [hW1c]
      omega
    rw [hun, hc1]
    have hbufne : (writeBufs { initW defaultOpts with
        corked := (initW defaultOpts).corked + m } cs).bufferedRequest.isEmpty = false := by
      rw [t11]
      cases cs with
      | nil => cases hne rfl
      | cons a t => rfl
    have hflush := uncork_flush
      { writeBufs { initW defaultOpts with corked := (initW defaultOpts).corked + m } cs with
          corked := 1 }
      rfl t3 (t7.trans rfl) (t8.trans rfl) hbufne
    rw [hflush]
    obtain ⟨c1, c2, c3⟩ := clearBuffer_sync_slowpath
      { writeBufs { initW defaultOpts with corked := (initW defaultOpts).corked + m } cs with
          corked := 0 }
      (t9.trans rfl) t3 (t10.trans rfl)
    refine ⟨by rw [htr]; rfl, by dsimp only; rw [htr]; rfl, ?_, c2⟩
    rw [c1]
    dsimp only
    rw [htr, t11, show (initW defaultOpts).bufferedRequest = ([] : List WriteReq) from rfl]
    simp only [List.nil_append, List.map_map, Function.comp]
    exact hookEvs_map_hookWrite cs
  · intro hlen
    rw [corkN_adds]
    obtain ⟨t1, t2, t3, t4, t5, t6, t7, t8, t9, t10, t11⟩ :=
      writeBufs_corked cs { initW writevOpts with corked := (initW writevOpts).corked + m }
        rfl rfl rfl (by show 0 < 0 + m; omega)
    have htr : (writeBufs { initW writevOpts with
        corked := (initW writevOpts).corked + m } cs).trace = [] := t1.trans rfl
    have hW1c : (writeBufs { initW writevOpts with
        corked := (initW writevOpts).corked + m } cs).corked = m := by
      rw [t4]
      show 0 + m = m
      omega
    have hun := uncorkN_noflush (m - 1)
      (writeBufs { initW writevOpts with corked := (initW writevOpts).corked + m } cs)
      (by rw [hW1c]; omega)
    have hc1 : (writeBufs { initW writevOpts with
          corked := (initW writevOpts).corked + m } cs).corked - (m - 1) = 1 := by
      rw [hW1c]
      omega
    rw [hun, hc1]
    have hbufne : (writeBufs { initW writevOpts with
        corked := (initW writevOpts).corked + m } cs).bufferedRequest.isEmpty = false := by
      rw [t11]
      cases cs with
      | nil => cases hne rfl
      | cons a t => rfl
    have hflush := uncork_flush
      { writeBufs { initW writevOpts with corked := (initW writevOpts).corked + m } cs with
          corked := 1 }
      rfl t3 (t7.trans rfl) (t8.trans rfl) hbufne
    rw [hflush]
    have hblen : 2 ≤ ({ writeBufs { initW writevOpts with
        corked := (initW writevOpts).corked + m } cs with
          corked := 0 }).bufferedRequest.length := by
      dsimp only
      rw [t11, show (initW writevOpts).bufferedRequest = ([] : List WriteReq) from rfl]
      simp only [List.nil_append, List.length_map]
      exact hlen
    obtain ⟨c1, c2⟩ := clearBuffer_sync_writev
      { writeBufs { initW writevOpts with corked := (initW writevOpts).corked + m } cs with
          corked := 0 }
      (t9.trans rfl) (t10.trans rfl) hblen
    rw [c1]
    dsimp only
    rw [htr, t11, show (initW writevOpts).bufferedRequest = ([] : List WriteReq) from rfl]
    simp only [List.nil_append, List.map_map, Function.comp]
    rfl

/-- Closed instance of writable_cork_uncork_delivery: two corks, three
writes, two uncorks. -/
theorem writable_cork_uncork_delivery_witness :
    ([[1], [2], [3]] : List (List Nat)) ≠ [] ∧ 0 < 2
    ∧ ((hookEvs (writeBufs (corkN (initW defaultOpts) 2) [[1], [2], [3]]).trace = []
      ∧ hookEvs (uncorkN (writeBufs (corkN (initW defaultOpts) 2) [[1], [2], [3]]) (2 - 1)).trace = []
      ∧ hookEvs (uncork (uncorkN (writeBufs (corkN (initW defaultOpts) 2) [[1], [2], [3]]) (2 - 1))).trace
          = [[1], [2], [3]].map (fun bs => Ev.hookWrite (.buf bs) .buffer)
      ∧ (uncork (uncorkN (writeBufs (corkN (initW defaultOpts) 2) [[1], [2], [3]]) (2 - 1))).bufferedRequest = [])
    ∧ (2 ≤ ([[1], [2], [3]] : List (List Nat)).length →
        hookEvs (uncork (uncorkN (writeBufs (corkN (initW writevOpts) 2) [[1], [2], [3]]) (2 - 1))).trace
          = [Ev.hookWritev ([[1], [2], [3]].map Chunk.buf)])) :=
  ⟨by simp, by omega, writable_cork_uncork_delivery [[1], [2], [3]] 2 (by simp) (by omega)⟩

end NodeStreams

namespace NodeStreams

/-- Invoking a callback value never touches the finish flags, the tick
queue or the drain count. -/
theorem invokeCb_frame (w : WritableState) (c : Cb) (err : Option ErrMsg) :
    (invokeCb w c err).finished = w.finished
    ∧ (invokeCb w c err).ended = w.ended
    ∧ (invokeCb w c err).writing = w.writing
    ∧ (invokeCb w c err).ticks = w.ticks
    ∧ (invokeCb w c err).finishListeners = w.finishListeners
    ∧ drainC (invokeCb w c err).trace = drainC w.trace := by
  cases c with
  | base u =>
    cases u with
    | none => exact ⟨rfl, rfl, rfl, rfl, rfl, rfl⟩
    | some i => simp [invokeCb, pushEv, drainC, List.countP_append]
  | corked cbs =>
    induction cbs generalizing w with
    | nil => exact ⟨rfl, rfl, rfl, rfl, rfl, rfl⟩
    | cons u t ih =>
      have step :
          invokeCb w (.corked (u :: t)) err
            = invokeCb
                (match u with
                 | none => { w with pendingcb := w.pendingcb - 1 }
                 | some i => pushEv { w with pendingcb := w.pendingcb - 1 } (.cbCall i err))
                (.corked t) err := by
        cases u with
        | none => rfl
        | some i => rfl
      rw [step]
      cases u with
      | none => exact ih { w with pendingcb := w.pendingcb - 1 }
      | some i =>
        obtain ⟨h1, h2, h3, h4, h5, h6⟩ :=
          ih (pushEv { w with pendingcb := w.pendingcb - 1 } (.cbCall i err))
        refine ⟨h1, h2, h3, h4, h5, ?_⟩
        rw [h6]
        simp [pushEv, drainC, List.countP_append]

/-- Dispatching the finish listeners does not emit drain. -/
theorem listenersFold_drainC (l : List Nat) (w : WritableState) :
    drainC (l.foldl (fun w i => pushEv w (.cbCall i none)) w).trace = drainC w.trace := by
  induction l generalizing w with
  | nil => rfl
  | cons i t ih =>
    rw [List.foldl_cons, ih]
    simp [pushEv, drainC, List.countP_append]

/-- The finish transition never emits drain. -/
theorem finishMaybe_drainC (w : WritableState) :
    drainC (finishMaybe w).trace = drainC w.trace := by
  unfold finishMaybe prefinishF emitFinish
  split
  · split
    · split
      · rw [listenersFold_drainC]
        simp [pushEv, drainC, List.countP_append]
      · rw [listenersFold_drainC]
        simp [pushEv, drainC, List.countP_append]
    · split
      · rfl
      · simp [pushEv, drainC, List.countP_append]
  · rfl

/-- The afterWrite of a completing write whose captured needFinish flag is
set skips onwriteDrain: no drain is emitted on the finish path. -/
theorem afterWrite_finished_drainC (w : WritableState) (cb : Cb) :
    drainC (afterWrite w true cb).trace = drainC w.trace := by
  unfold afterWrite
  simp only [Bool.not_true, Bool.false_eq_true, if_false]
  obtain ⟨h1, h2, h3, h4, h5, h6⟩ :=
    invokeCb_frame { w with pendingcb := w.pendingcb - 1 } cb none
  rw [finishMaybe_drainC, h6]

end NodeStreams

namespace NodeStreams

/-- On a finished sink, uncork only decrements the cork level: the flush
guard is blocked by the finished flag. -/
theorem uncork_finished_eq (w : WritableState) (hf : w.finished = true) :
    uncork w = if decide (0 < w.corked) = true then { w with corked := w.corked - 1 } else w := by
  unfold uncork
  split
  · simp only [hf, Bool.not_true, Bool.and_false, Bool.false_and, Bool.false_eq_true, if_false]
  · rfl

/-- Uncorking a finished sink from cork level one just zeroes the
counter. -/
theorem uncork_one (u : WritableState) (hc : u.corked = 1) (hf : u.finished = true) :
    uncork u = { u with corked := 0 } := by
  rw [uncork_finished_eq u hf, hc]
  rfl

/-- Equation form of the write-after-end path of write. -/
theorem writeAfterEnd_write_eq (w : WritableState) (c : Chunk) (e : Option Enc) (cb : Cb)
    (hend : w.ended = true) :
    (write w c e cb).2
      = pushTick (pushEv w (.errorEv .writeAfterEnd)) (.cbT cb (some .writeAfterEnd)) := by
  unfold write writeAfterEnd
  rw [hend]
  rfl

/-- One operation on a quiescent finished sink leaves it quiescent and
finished and emits no drain event. -/
theorem qinv_applyOp (w : WritableState) (o : Op) (h : QInv w = true) :
    QInv (applyOp w o) = true ∧ drainC (applyOp w o).trace = drainC w.trace := by
  have hfin : w.finished = true := by
    simp only [QInv, Bool.and_eq_true] at h
    exact h.1.1.1
  have hende : w.ended = true := by
    simp only [QInv, Bool.and_eq_true] at h
    exact h.1.1.2
  have hwr : w.writing = false := by
    simp only [QInv, Bool.and_eq_true, Bool.not_eq_true'] at h
    exact h.1.2
  have hticks : w.ticks.all cbTickOnly = true := by
    simp only [QInv, Bool.and_eq_true] at h
    exact h.2
  cases o with
  | writeOp c e cb =>
    show QInv (write w c e cb).2 = true ∧ drainC (write w c e cb).2.trace = drainC w.trace
    unfold write writeAfterEnd
    rw [hende]
    constructor
    · simp [QInv, pushEv, pushTick, hfin, hende, hwr, List.all_append, hticks, cbTickOnly]
    · simp [pushEv, pushTick, drainC, List.countP_append]
  | corkOp =>
    exact ⟨by simpa [QInv, cork] using h, rfl⟩
  | uncorkOp =>
    show QInv (uncork w) = true ∧ drainC (uncork w).trace = drainC w.trace
    rw [uncork_finished_eq w hfin]
    split
    · refine ⟨?_, ?_⟩
      · simp [QInv, hfin, hende, hwr, hticks]
      · first
        | rfl
        | trivial
    · refine ⟨h, ?_⟩
      first
      | rfl
      | trivial
  | endOp c e cb =>
    show QInv (endW w c e cb) = true ∧ drainC (endW w c e cb).trace = drainC w.trace
    unfold endW
    cases c with
    | none =>
      dsimp only
      split
      · rw [uncork_one { w with corked := 1 } rfl hfin]
        simp only [hfin, Bool.not_true, Bool.and_false, Bool.false_eq_true, if_false]
        refine ⟨?_, ?_⟩
        · simp [QInv, hfin, hende, hwr, hticks]
        · first
          | rfl
          | trivial
      · simp only [hfin, Bool.not_true, Bool.and_false, Bool.false_eq_true, if_false]
        refine ⟨?_, ?_⟩
        · simp [QInv, hfin, hende, hwr, hticks]
        · first
          | rfl
          | trivial
    | some cc =>
      dsimp only
      rw [writeAfterEnd_write_eq w cc e (.base none) hende]
      split
      · rw [uncork_one
          { pushTick (pushEv w (.errorEv .writeAfterEnd)) (.cbT (.base none) (some .writeAfterEnd))
              with corked := 1 } rfl hfin]
        simp only [pushEv, pushTick, hfin, Bool.not_true, Bool.and_false, Bool.false_eq_true,
          if_false]
        refine ⟨?_, ?_⟩
        · simp [QInv, pushEv, pushTick, hfin, hende, hwr, List.all_append, hticks, cbTickOnly]
        · simp [pushEv, pushTick, drainC, List.countP_append]
      · simp only [pushEv, pushTick, hfin, Bool.not_true, Bool.and_false, Bool.false_eq_true,
          if_false]
        refine ⟨?_, ?_⟩
        · simp [QInv, pushEv, pushTick, hfin, hende, hwr, List.all_append, hticks, cbTickOnly]
        · simp [pushEv, pushTick, drainC, List.countP_append]
  | consumerDoneOp err =>
    show QInv (consumerDone w err) = true ∧ drainC (consumerDone w err).trace = drainC w.trace
    unfold consumerDone
    rw [hwr]
    simp only [Bool.false_eq_true, if_false]
    refine ⟨h, ?_⟩
    first
    | rfl
    | trivial
  | runTickOp =>
    show QInv (runTick w) = true ∧ drainC (runTick w).trace = drainC w.trace
    unfold runTick
    cases ht : w.ticks with
    | nil => exact ⟨h, rfl⟩
    | cons t rest =>
      have htc : cbTickOnly t = true ∧ rest.all cbTickOnly = true := by
        rw [ht] at hticks
        simpa [List.all_cons] using hticks
      cases t with
      | cbT c errt =>
        dsimp only
        obtain ⟨h1, h2, h3, h4, h5, h6⟩ := invokeCb_frame { w with ticks := rest } c errt
        refine ⟨?_, h6⟩
        unfold QInv
        rw [h1, h2, h3, h4]
        dsimp only
        rw [hfin, hende, hwr, htc.2]
        rfl
      | afterWriteT f c =>
        exact absurd htc.1 (by simp [cbTickOnly])
      | onEndNT =>
        exact absurd htc.1 (by simp [cbTickOnly])

/-- Iterated version of qinv_applyOp over an operation sequence. -/
theorem qinv_applyOps (ops : List Op) (w : WritableState) (h : QInv w = true) :
    QInv (applyOps w ops) = true ∧ drainC (applyOps w ops).trace = drainC w.trace := by
  induction ops generalizing w with
  | nil => exact ⟨h, rfl⟩
  | cons o rest ih =>
    obtain ⟨h1, h2⟩ := qinv_applyOp w o h
    obtain ⟨h3, h4⟩ := ih (applyOp w o) h1
    exact ⟨h3, h4.trans h2⟩

end NodeStreams

namespace NodeStreams

/-- C4 counterexample: a complete run in which write returned false and
yet no drain is ever emitted.  With high-water mark 1, a two-byte write
returns false; end() is called; the consumer completion then coincides
with the finish transition, so afterWrite skips onwriteDrain.  The final
state is finished and fully quiescent: empty tick queue, no listeners, no
pending callbacks, nothing buffered, and zero drain events in the trace —
refuting emission of the drain signal exactly once after a false-returning
write. -/
theorem writable_drain_counterexample :
    (write (initW hwm1Opts) (.buf [1, 2]) none (.base (some 1))).1 = false
    ∧ drainC c4end.trace = 0
    ∧ c4end.finished = true
    ∧ c4end.ticks = []
    ∧ c4end.finishListeners = []
    ∧ c4end.pendingcb = 0
    ∧ c4end.bufferedRequest = [] :=
  ⟨rfl, rfl, rfl, rfl, rfl, rfl, rfl⟩

/-- C4 (amended): the drain signal is emitted only at a moment when the
accounting length is zero and the needDrain flag is armed, and emission
disarms the flag (so at most one emission per false-returning write); a
completing write whose captured needFinish flag is set never emits drain;
from the finished quiescent counterexample state no operation sequence
ever emits drain (the drain owed by a false-returning write is skipped
forever when the finish transition arrives first); and in the high-water
mark 10 scenario the drain fires exactly once, with pending back at zero,
after the completion of the first write and before the completion
callback of the second. -/
theorem writable_drain_amended :
    (∀ w : WritableState,
      (onwriteDrain w).trace
        = w.trace ++ (if w.length == 0 && w.needDrain then [Ev.drainEv] else [])
      ∧ (onwriteDrain w).needDrain
          = (if w.length == 0 && w.needDrain then false else w.needDrain))
    ∧ (∀ (w : WritableState) (cb : Cb),
        drainC (afterWrite w true cb).trace = drainC w.trace)
    ∧ (∀ ops : List Op, drainC (applyOps c4end ops).trace = 0)
    ∧ (write (initW hwm10Opts) (.buf [1, 2, 3, 4, 5, 6]) none (.base (some 1))).1 = true
    ∧ (write (write (initW hwm10Opts) (.buf [1, 2, 3, 4, 5, 6]) none (.base (some 1))).2
        (.buf [7, 8, 9, 10, 11, 12]) none (.base (some 2))).1 = false
    ∧ (consumerDone (write (write (initW hwm10Opts) (.buf [1, 2, 3, 4, 5, 6]) none
          (.base (some 1))).2 (.buf [7, 8, 9, 10, 11, 12]) none (.base (some 2))).2
        none).length = 6
    ∧ drainC (consumerDone (write (write (initW hwm10Opts) (.buf [1, 2, 3, 4, 5, 6]) none
          (.base (some 1))).2 (.buf [7, 8, 9, 10, 11, 12]) none (.base (some 2))).2
        none).trace = 0
    ∧ (consumerDone (consumerDone (write (write (initW hwm10Opts) (.buf [1, 2, 3, 4, 5, 6])
          none (.base (some 1))).2 (.buf [7, 8, 9, 10, 11, 12]) none (.base (some 2))).2
        none) none).trace
        = [.hookWrite (.buf [1, 2, 3, 4, 5, 6]) .buffer,
           .hookWrite (.buf [7, 8, 9, 10, 11, 12]) .buffer,
           .cbCall 1 none, .drainEv, .cbCall 2 none] := by
  refine ⟨?_, afterWrite_finished_drainC, ?_, rfl, rfl, rfl, rfl, rfl⟩
  · intro w
    unfold onwriteDrain pushEv
    split
    · exact ⟨rfl, rfl⟩
    · refine ⟨by simp, rfl⟩
  · intro ops
    exact (qinv_applyOps ops c4end rfl).2.trans rfl

end NodeStreams

namespace NodeStreams

/-- GInv only reads eight observables of the state; equal observables
transfer the invariant. -/
theorem GInv_congr (w w' : WritableState)
    (h1 : w'.finished = w.finished) (h2 : w'.ending = w.ending) (h3 : w'.ended = w.ended)
    (h4 : w'.length = w.length) (h5 : w'.bufferedRequest = w.bufferedRequest)
    (h6 : w'.writing = w.writing) (h7 : w'.prefinish = w.prefinish)
    (h8 : prefC w'.trace = prefC w.trace) (h : GInv w) : GInv w' := by
  unfold GInv at h ⊢
  rw [h1, h2, h3, h4, h5, h6, h7, h8]
  exact h

/-- Dispatching the finish listeners appends no prefinish event. -/
theorem listenersFold_prefC (l : List Nat) (w : WritableState) :
    prefC (l.foldl (fun w i => pushEv w (.cbCall i none)) w).trace = prefC w.trace := by
  induction l generalizing w with
  | nil => rfl
  | cons i t ih =>
    rw [List.foldl_cons, ih]
    simp [pushEv, prefC, List.countP_append]

/-- Listener dispatch only appends callback events: every other field is
unchanged. -/
theorem listenersFold_char (l : List Nat) (w : WritableState) :
    (l.foldl (fun w i => pushEv w (.cbCall i none)) w).ending = w.ending
    ∧ (l.foldl (fun w i => pushEv w (.cbCall i none)) w).ended = w.ended
    ∧ (l.foldl (fun w i => pushEv w (.cbCall i none)) w).length = w.length
    ∧ (l.foldl (fun w i => pushEv w (.cbCall i none)) w).bufferedRequest = w.bufferedRequest
    ∧ (l.foldl (fun w i => pushEv w (.cbCall i none)) w).writing = w.writing
    ∧ (l.foldl (fun w i => pushEv w (.cbCall i none)) w).finished = w.finished
    ∧ (l.foldl (fun w i => pushEv w (.cbCall i none)) w).prefinish = w.prefinish := by
  induction l generalizing w with
  | nil => exact ⟨rfl, rfl, rfl, rfl, rfl, rfl, rfl⟩
  | cons i t ih =>
    rw [List.foldl_cons]
    exact ih (pushEv w (.cbCall i none))

/-- Emission of the finish event preserves every GInv observable except
the trace, and appends no prefinish event. -/
theorem emitFinish_char (w : WritableState) :
    (emitFinish w).ending = w.ending
    ∧ (emitFinish w).ended = w.ended
    ∧ (emitFinish w).length = w.length
    ∧ (emitFinish w).bufferedRequest = w.bufferedRequest
    ∧ (emitFinish w).writing = w.writing
    ∧ (emitFinish w).finished = w.finished
    ∧ (emitFinish w).prefinish = w.prefinish
    ∧ prefC (emitFinish w).trace = prefC w.trace := by
  unfold emitFinish
  obtain ⟨f1, f2, f3, f4, f5, f6, f7⟩ :=
    listenersFold_char (pushEv w .finishEv).finishListeners (pushEv w .finishEv)
  refine ⟨f1, f2, f3, f4, f5, f6, f7, ?_⟩
  rw [listenersFold_prefC]
  simp [pushEv, prefC, List.countP_append]

/-- Full characterization of finishMaybe: the non-finish fields are
untouched, finished is set exactly when needFinish holds with a zero
pending-callback counter, the prefinish flag absorbs needFinish, and one
prefinish event is appended exactly when needFinish holds with the flag
still clear. -/
theorem finishMaybe_char (w : WritableState) :
    (finishMaybe w).ending = w.ending
    ∧ (finishMaybe w).ended = w.ended
    ∧ (finishMaybe w).length = w.length
    ∧ (finishMaybe w).bufferedRequest = w.bufferedRequest
    ∧ (finishMaybe w).writing = w.writing
    ∧ (finishMaybe w).finished = (w.finished || (needFinish w && w.pendingcb == 0))
    ∧ (finishMaybe w).prefinish = (w.prefinish || needFinish w)
    ∧ prefC (finishMaybe w).trace
        = prefC w.trace + (if needFinish w && !w.prefinish then 1 else 0) := by
  unfold finishMaybe prefinishF
  by_cases hn : needFinish w = true
  · rw [if_pos hn]
    have hnf : w.finished = false := by
      unfold needFinish at hn
      simp only [Bool.and_eq_true, Bool.not_eq_true'] at hn
      exact hn.1.2
    by_cases hp : w.pendingcb == 0
    · rw [if_pos hp]
      by_cases hpre : w.prefinish = true
      · rw [if_pos hpre]
        refine ⟨(emitFinish_char _).1.trans rfl, (emitFinish_char _).2.1.trans rfl,
          (emitFinish_char _).2.2.1.trans rfl, (emitFinish_char _).2.2.2.1.trans rfl,
          (emitFinish_char _).2.2.2.2.1.trans rfl,
          (emitFinish_char _).2.2.2.2.2.1.trans (by simp [hn, hp]),
          (emitFinish_char _).2.2.2.2.2.2.1.trans (by simp [hpre]),
          ((emitFinish_char _).2.2.2.2.2.2.2).trans (by simp [hpre])⟩
      · rw [if_neg hpre]
        simp only [Bool.not_eq_true] at hpre
        refine ⟨(emitFinish_char _).1.trans rfl, (emitFinish_char _).2.1.trans rfl,
          (emitFinish_char _).2.2.1.trans rfl, (emitFinish_char _).2.2.2.1.trans rfl,
          (emitFinish_char _).2.2.2.2.1.trans rfl,
          (emitFinish_char _).2.2.2.2.2.1.trans (by simp [hn, hp]),
          (emitFinish_char _).2.2.2.2.2.2.1.trans (by simp [pushEv, hn]),
          ((emitFinish_char _).2.2.2.2.2.2.2).trans
            (by simp [hn, hpre, pushEv, prefC, List.countP_append])⟩
    · rw [if_neg hp]
      by_cases hpre : w.prefinish = true
      · rw [if_pos hpre]
        refine ⟨rfl, rfl, rfl, rfl, rfl, ?_, ?_, ?_⟩
        · simp [hp, hnf]
        · simp [hpre]
        · simp [hpre]
      · rw [if_neg hpre]
        simp only [Bool.not_eq_true] at hpre
        refine ⟨rfl, rfl, rfl, rfl, rfl, ?_, ?_, ?_⟩
        · simp [hp, hnf, pushEv]
        · simp [hn, pushEv]
        · simp [hn, hpre, pushEv, prefC, List.countP_append]
  · rw [if_neg hn]
    simp only [Bool.not_eq_true] at hn
    refine ⟨rfl, rfl, rfl, rfl, rfl, ?_, ?_, ?_⟩
    · simp [hn]
    · simp [hn]
    · simp [hn]

/-- GInv holds of a freshly constructed sink. -/
theorem ginv_init (o : WOpts) : GInv (initW o) := by
  refine ⟨?_, ?_, ?_, ?_, ?_⟩ <;> intro hx <;> simp [initW] at hx ⊢
  rfl

end NodeStreams

namespace NodeStreams

/-- Unpacked form of a true needFinish check. -/
theorem needFinish_spec (w : WritableState) (hn : needFinish w = true) :
    w.ending = true ∧ w.length = 0 ∧ w.bufferedRequest = [] ∧ w.finished = false
    ∧ w.writing = false := by
  unfold needFinish at hn
  simp only [Bool.and_eq_true, Bool.not_eq_true', List.isEmpty_iff, beq_iff_eq] at hn
  refine ⟨?_, ?_, ?_, ?_, ?_⟩ <;> simp_all

/-- finishMaybe preserves the lifecycle invariant. -/
theorem finishMaybe_GInv (w : WritableState) (h : GInv w) : GInv (finishMaybe w) := by
  obtain ⟨c1, c2, c3, c4, c5, c6, c7, c8⟩ := finishMaybe_char w
  obtain ⟨g1, g2, g3, g4, g5⟩ := h
  refine ⟨?_, ?_, ?_, ?_, ?_⟩
  · intro hf
    rw [c6] at hf
    rw [c1, c2, c3, c4, c5]
    cases hwf : w.finished with
    | true => exact g1 hwf
    | false =>
      rw [hwf] at hf
      simp only [Bool.false_or, Bool.and_eq_true] at hf
      obtain ⟨hend2, hlen, hbuf, _, hwr2⟩ := needFinish_spec w hf.1
      exact ⟨hend2, g2 hend2, hlen, hbuf, hwr2⟩
  · intro he
    rw [c1] at he
    rw [c2]
    exact g2 he
  · intro hp
    rw [c7] at hp
    simp only [Bool.or_eq_false_iff] at hp
    rw [c8, g3 hp.1]
    simp [hp.2]
  · intro hp
    rw [c7] at hp
    rw [c8]
    cases hwp : w.prefinish with
    | true =>
      rw [g4 hwp]
      simp [hwp]
    | false =>
      rw [hwp] at hp
      simp only [Bool.false_or] at hp
      rw [g3 hwp]
      simp [hwp, hp]
  · intro hf
    rw [c6] at hf
    rw [c7]
    cases hwf : w.finished with
    | true =>
      rw [g5 hwf]
      simp
    | false =>
      rw [hwf] at hf
      simp only [Bool.false_or, Bool.and_eq_true] at hf
      simp [hf.1]

/-- Setter condition of the finish flag: finishMaybe flips finished only
when needFinish holds and the pending-callback counter is zero. -/
theorem finishMaybe_setter (w : WritableState) (hf0 : w.finished = false)
    (hf1 : (finishMaybe w).finished = true) :
    needFinish w = true ∧ w.pendingcb = 0 := by
  obtain ⟨_, _, _, _, _, c6, _, _⟩ := finishMaybe_char w
  rw [c6, hf0] at hf1
  simp only [Bool.false_or, Bool.and_eq_true, beq_iff_eq] at hf1
  exact hf1

/-- Invoking a callback value preserves every GInv observable. -/
theorem invokeCb_frameG (w : WritableState) (c : Cb) (err : Option ErrMsg) :
    (invokeCb w c err).finished = w.finished
    ∧ (invokeCb w c err).ending = w.ending
    ∧ (invokeCb w c err).ended = w.ended
    ∧ (invokeCb w c err).length = w.length
    ∧ (invokeCb w c err).bufferedRequest = w.bufferedRequest
    ∧ (invokeCb w c err).writing = w.writing
    ∧ (invokeCb w c err).prefinish = w.prefinish
    ∧ prefC (invokeCb w c err).trace = prefC w.trace := by
  cases c with
  | base u =>
    cases u with
    | none => exact ⟨rfl, rfl, rfl, rfl, rfl, rfl, rfl, rfl⟩
    | some i => simp [invokeCb, pushEv, prefC, List.countP_append]
  | corked cbs =>
    induction cbs generalizing w with
    | nil => exact ⟨rfl, rfl, rfl, rfl, rfl, rfl, rfl, rfl⟩
    | cons u t ih =>
      have step :
          invokeCb w (.corked (u :: t)) err
            = invokeCb
                (match u with
                 | none => { w with pendingcb := w.pendingcb - 1 }
                 | some i => pushEv { w with pendingcb := w.pendingcb - 1 } (.cbCall i err))
                (.corked t) err := by
        cases u with
        | none => rfl
        | some i => rfl
      rw [step]
      cases u with
      | none => exact ih { w with pendingcb := w.pendingcb - 1 }
      | some i =>
        obtain ⟨h1, h2, h3, h4, h5, h6, h7, h8⟩ :=
          ih (pushEv { w with pendingcb := w.pendingcb - 1 } (.cbCall i err))
        refine ⟨h1, h2, h3, h4, h5, h6, h7, ?_⟩
        rw [h8]
        simp [pushEv, prefC, List.countP_append]

/-- Invoking a callback value preserves the lifecycle invariant. -/
theorem ginv_invokeCb (w : WritableState) (c : Cb) (err : Option ErrMsg) (h : GInv w) :
    GInv (invokeCb w c err) := by
  obtain ⟨f1, f2, f3, f4, f5, f6, f7, f8⟩ := invokeCb_frameG w c err
  exact GInv_congr w _ f1 f2 f3 f4 f5 f6 f7 f8 h

/-- onwriteDrain preserves the lifecycle invariant. -/
theorem ginv_onwriteDrain (w : WritableState) (h : GInv w) : GInv (onwriteDrain w) := by
  unfold onwriteDrain
  split
  · exact GInv_congr w _ rfl rfl rfl rfl rfl rfl rfl
      (by simp [pushEv, prefC, List.countP_append]) h
  · exact h

/-- afterWrite preserves the lifecycle invariant. -/
theorem afterWrite_GInv (w : WritableState) (f : Bool) (cb : Cb) (h : GInv w) :
    GInv (afterWrite w f cb) := by
  unfold afterWrite
  apply finishMaybe_GInv
  apply ginv_invokeCb
  cases f with
  | true =>
    simp only [Bool.not_true, Bool.false_eq_true, if_false]
    exact GInv_congr w _ rfl rfl rfl rfl rfl rfl rfl rfl h
  | false =>
    simp only [Bool.not_false, if_true]
    exact GInv_congr (onwriteDrain w) _ rfl rfl rfl rfl rfl rfl rfl rfl
      (ginv_onwriteDrain w h)

end NodeStreams

namespace NodeStreams

/-- Transfer of GInv to a state that is not finished, when the ending,
ended and prefinish observables agree: the length, queue and writing
fields may differ freely. -/
theorem ginv_frames (w w' : WritableState) (hfin : w'.finished = false)
    (h2 : w'.ending = w.ending) (h3 : w'.ended = w.ended)
    (h7 : w'.prefinish = w.prefinish) (h8 : prefC w'.trace = prefC w.trace)
    (h : GInv w) : GInv w' := by
  obtain ⟨g1, g2, g3, g4, g5⟩ := h
  refine ⟨?_, ?_, ?_, ?_, ?_⟩
  · intro hf
    rw [hfin] at hf
    exact Bool.noConfusion hf
  · intro he
    rw [h2] at he
    rw [h3]
    exact g2 he
  · intro hp
    rw [h7] at hp
    rw [h8]
    exact g3 hp
  · intro hp
    rw [h7] at hp
    rw [h8]
    exact g4 hp
  · intro hf
    rw [hfin] at hf
    exact Bool.noConfusion hf

/-- doWrite through the in-buffer onwrite variant preserves the finish
flags, the prefinish flag and the prefinish count, for both payload kinds
and both consumer modes. -/
theorem doWriteInner_frame5 (w : WritableState) (p : WritePayload) (len : Nat) (cb : Cb) :
    (doWriteInner w p len cb).finished = w.finished
    ∧ (doWriteInner w p len cb).ending = w.ending
    ∧ (doWriteInner w p len cb).ended = w.ended
    ∧ (doWriteInner w p len cb).prefinish = w.prefinish
    ∧ prefC (doWriteInner w p len cb).trace = prefC w.trace := by
  unfold doWriteInner doWriteWith onwriteNC onwriteWith onwriteStateUpdate
  cases p with
  | one c e =>
    dsimp only
    simp only [id_eq, ite_self]
    split
    · exact ⟨rfl, rfl, rfl, rfl, by simp [pushEv, pushTick, prefC, List.countP_append]⟩
    · exact ⟨rfl, rfl, rfl, rfl, by simp [pushEv, prefC, List.countP_append]⟩
  | many reqs =>
    dsimp only
    simp only [id_eq, ite_self]
    split
    · exact ⟨rfl, rfl, rfl, rfl, by simp [pushEv, pushTick, prefC, List.countP_append]⟩
    · exact ⟨rfl, rfl, rfl, rfl, by simp [pushEv, prefC, List.countP_append]⟩

/-- The clearBuffer slow loop preserves the finish flags, the prefinish
flag and the prefinish count. -/
theorem clearBufferSlow_frame5 (entries : List WriteReq) (w : WritableState) :
    (clearBufferSlow entries w).2.finished = w.finished
    ∧ (clearBufferSlow entries w).2.ending = w.ending
    ∧ (clearBufferSlow entries w).2.ended = w.ended
    ∧ (clearBufferSlow entries w).2.prefinish = w.prefinish
    ∧ prefC (clearBufferSlow entries w).2.trace = prefC w.trace := by
  induction entries generalizing w with
  | nil => exact ⟨rfl, rfl, rfl, rfl, rfl⟩
  | cons e rest ih =>
    unfold clearBufferSlow
    dsimp only
    generalize (if w.objectMode = true then 1 else chunkLen e.chunk) = len0
    obtain ⟨d1, d2, d3, d4, d5⟩ :=
      doWriteInner_frame5 w (.one e.chunk e.encoding) len0 e.callback
    split
    · exact ⟨d1, d2, d3, d4, d5⟩
    · obtain ⟨i1, i2, i3, i4, i5⟩ :=
        ih (doWriteInner w (.one e.chunk e.encoding) len0 e.callback)
      exact ⟨i1.trans d1, i2.trans d2, i3.trans d3, i4.trans d4, i5.trans d5⟩

/-- clearBuffer preserves the finish flags, the prefinish flag and the
prefinish count. -/
theorem clearBuffer_frame5 (w : WritableState) :
    (clearBuffer w).finished = w.finished
    ∧ (clearBuffer w).ending = w.ending
    ∧ (clearBuffer w).ended = w.ended
    ∧ (clearBuffer w).prefinish = w.prefinish
    ∧ prefC (clearBuffer w).trace = prefC w.trace := by
  unfold clearBuffer
  dsimp only
  split
  · obtain ⟨d1, d2, d3, d4, d5⟩ := doWriteInner_frame5 { w with bufferProcessing := true }
      (.many w.bufferedRequest) w.length
      (.corked (w.bufferedRequest.map (fun r =>
        match r.callback with
        | .base u => u
        | .corked _ => none)))
    exact ⟨d1, d2, d3, d4, d5⟩
  · obtain ⟨s1, s2, s3, s4, s5⟩ :=
      clearBufferSlow_frame5 w.bufferedRequest { w with bufferProcessing := true }
    exact ⟨s1, s2, s3, s4, s5⟩

/-- onwrite (top level, clearBuffer branch live) preserves the lifecycle
invariant: it is only invoked while a write is in flight, in which case
the sink cannot be finished. -/
theorem onwrite_GInv (w : WritableState) (err : Option ErrMsg)
    (hwr : w.writing = true) (h : GInv w) : GInv (onwrite w err) := by
  have hfin : w.finished = false := by
    cases hf : w.finished with
    | false => rfl
    | true =>
      have := (h.1 hf).2.2.2.2
      rw [hwr] at this
      exact Bool.noConfusion this
  unfold onwrite onwriteWith onwriteStateUpdate onwriteError
  cases hcb : w.writecb with
  | none => exact h
  | some cb =>
    dsimp only
    cases err with
    | some e =>
      dsimp only
      split
      · exact ginv_frames w _ hfin rfl rfl rfl
          (by simp [pushEv, pushTick, prefC, List.countP_append]) h
      · have hY := ginv_invokeCb
          { w with writing := false, writecb := none, length := w.length - w.writelen,
                   writelen := 0, pendingcb := w.pendingcb - 1 }
          cb (some e) (ginv_frames w _ hfin rfl rfl rfl rfl h)
        obtain ⟨f1, f2, f3, f4, f5, f6, f7, f8⟩ := invokeCb_frameG
          { w with writing := false, writecb := none, length := w.length - w.writelen,
                   writelen := 0, pendingcb := w.pendingcb - 1 } cb (some e)
        exact ginv_frames
          (invokeCb
            { w with writing := false, writecb := none, length := w.length - w.writelen,
                     writelen := 0, pendingcb := w.pendingcb - 1 } cb (some e)) _
          (f1.trans hfin) rfl rfl rfl
          (by simp [pushEv, prefC, List.countP_append]) hY
    | none =>
      dsimp only
      split
      · split
        · obtain ⟨c1, c2, c3, c4, c5⟩ := clearBuffer_frame5
            { w with writing := false, writecb := none, length := w.length - w.writelen,
                     writelen := 0 }
          exact ginv_frames w _ (c1.trans hfin) (c2.trans rfl) (c3.trans rfl)
            (c4.trans rfl) (c5.trans rfl) h
        · exact ginv_frames w _ hfin rfl rfl rfl rfl h
      · apply afterWrite_GInv
        split
        · obtain ⟨c1, c2, c3, c4, c5⟩ := clearBuffer_frame5
            { w with writing := false, writecb := none, length := w.length - w.writelen,
                     writelen := 0 }
          exact ginv_frames w _ (c1.trans hfin) (c2.trans rfl) (c3.trans rfl)
            (c4.trans rfl) (c5.trans rfl) h
        · exact ginv_frames w _ hfin rfl rfl rfl rfl h

end NodeStreams

namespace NodeStreams

/-- doWrite from writeOrBuffer preserves the lifecycle invariant when the
sink is not finished. -/
theorem doWriteTop_GInv (w : WritableState) (p : WritePayload) (len : Nat) (cb : Cb)
    (hfin : w.finished = false) (h : GInv w) : GInv (doWriteTop w p len cb) := by
  unfold doWriteTop doWriteWith
  cases p with
  | one c e =>
    dsimp only
    split
    · have hW1 : GInv (pushEv
          { w with writelen := len, writecb := some cb, writing := true, sync := true }
          (.hookWrite c e)) :=
        ginv_frames w _ hfin rfl rfl rfl
          (by simp [pushEv, prefC, List.countP_append]) h
      have hres := onwrite_GInv (pushEv
          { w with writelen := len, writecb := some cb, writing := true, sync := true }
          (.hookWrite c e)) none rfl hW1
      exact GInv_congr _ _ rfl rfl rfl rfl rfl rfl rfl rfl hres
    · exact ginv_frames w _ hfin rfl rfl rfl
        (by simp [pushEv, prefC, List.countP_append]) h
  | many reqs =>
    dsimp only
    split
    · have hW1 : GInv (pushEv
          { w with writelen := len, writecb := some cb, writing := true, sync := true }
          (.hookWritev (reqs.map (fun r => r.chunk)))) :=
        ginv_frames w _ hfin rfl rfl rfl
          (by simp [pushEv, prefC, List.countP_append]) h
      have hres := onwrite_GInv (pushEv
          { w with writelen := len, writecb := some cb, writing := true, sync := true }
          (.hookWritev (reqs.map (fun r => r.chunk)))) none rfl hW1
      exact GInv_congr _ _ rfl rfl rfl rfl rfl rfl rfl rfl hres
    · exact ginv_frames w _ hfin rfl rfl rfl
        (by simp [pushEv, prefC, List.countP_append]) h

/-- writeOrBuffer preserves the lifecycle invariant when the sink is not
finished. -/
theorem writeOrBuffer_GInv (w : WritableState) (c : Chunk) (e : Enc) (cb : Cb)
    (hfin : w.finished = false) (h : GInv w) : GInv (writeOrBuffer w c e cb).2 := by
  unfold writeOrBuffer
  dsimp only
  repeat' split
  all_goals first
    | exact ginv_frames w _ hfin rfl rfl rfl rfl h
    | exact doWriteTop_GInv _ _ _ _ hfin (ginv_frames w _ hfin rfl rfl rfl rfl h)

/-- write preserves the lifecycle invariant. -/
theorem write_GInv (w : WritableState) (c : Chunk) (e : Option Enc) (cb : Cb)
    (h : GInv w) : GInv (write w c e cb).2 := by
  by_cases hend : w.ended = true
  · unfold write writeAfterEnd
    rw [hend]
    exact GInv_congr w _ rfl rfl rfl rfl rfl rfl rfl
      (by simp [pushEv, pushTick, prefC, List.countP_append]) h
  · have hend2 : w.ended = false := by
      cases hb : w.ended with
      | false => rfl
      | true => exact absurd hb hend
    have hfin : w.finished = false := by
      cases hf : w.finished with
      | false => rfl
      | true =>
        have := (h.1 hf).2.1
        rw [hend2] at this
        exact Bool.noConfusion this
    unfold write
    rw [hend2]
    cases hv : validChunkErr w.objectMode c with
    | some er =>
      exact GInv_congr w _ rfl rfl rfl rfl rfl rfl rfl
        (by simp [validChunkFail, pushEv, pushTick, prefC, List.countP_append]) h
    | none =>
      exact writeOrBuffer_GInv _ _ _ _ hfin
        (ginv_frames w _ hfin rfl hend2.symm rfl rfl h)

end NodeStreams

namespace NodeStreams

/-- uncork preserves the lifecycle invariant: the flush branch is guarded
by the finished flag. -/
theorem uncork_GInv (w : WritableState) (h : GInv w) : GInv (uncork w) := by
  unfold uncork
  split
  · dsimp only
    split
    · rename_i hg
      have hfin : w.finished = false := by
        cases hf : w.finished with
        | false => rfl
        | true =>
          rw [hf] at hg
          simp at hg
      obtain ⟨c1, c2, c3, c4, c5⟩ := clearBuffer_frame5 { w with corked := w.corked - 1 }
      exact ginv_frames w _ (c1.trans hfin) (c2.trans rfl) (c3.trans rfl)
        (c4.trans rfl) (c5.trans rfl) h
    · exact GInv_congr w _ rfl rfl rfl rfl rfl rfl rfl rfl h
  · exact h

/-- Core transfer for endWritable: any state whose finish observables
agree with the finishMaybe of the ending-marked sink and whose ended flag
is set satisfies the invariant. -/
theorem endWritable_core (w : WritableState) (h : GInv w) (R : WritableState)
    (hRfin : R.finished = (finishMaybe { w with ending := true }).finished)
    (hRend : R.ended = true)
    (hRing : R.ending = true)
    (hRlen : R.length = w.length)
    (hRbuf : R.bufferedRequest = w.bufferedRequest)
    (hRwr : R.writing = w.writing)
    (hRpre : R.prefinish = (finishMaybe { w with ending := true }).prefinish)
    (hRpc : prefC R.trace = prefC (finishMaybe { w with ending := true }).trace) :
    GInv R := by
  obtain ⟨c1, c2, c3, c4, c5, c6, c7, c8⟩ := finishMaybe_char { w with ending := true }
  obtain ⟨g1, g2, g3, g4, g5⟩ := h
  refine ⟨?_, ?_, ?_, ?_, ?_⟩
  · intro hf
    rw [hRfin, c6] at hf
    refine ⟨hRing, hRend, ?_, ?_, ?_⟩
    · cases hwf : w.finished with
      | true =>
        rw [hRlen]
        exact (g1 hwf).2.2.1
      | false =>
        rw [hwf] at hf
        simp only [Bool.false_or, Bool.and_eq_true] at hf
        obtain ⟨_, hlen, _, _, _⟩ := needFinish_spec _ hf.1
        rw [hRlen]
        exact hlen
    · cases hwf : w.finished with
      | true =>
        rw [hRbuf]
        exact (g1 hwf).2.2.2.1
      | false =>
        rw [hwf] at hf
        simp only [Bool.false_or, Bool.and_eq_true] at hf
        obtain ⟨_, _, hbuf, _, _⟩ := needFinish_spec _ hf.1
        rw [hRbuf]
        exact hbuf
    · cases hwf : w.finished with
      | true =>
        rw [hRwr]
        exact (g1 hwf).2.2.2.2
      | false =>
        rw [hwf] at hf
        simp only [Bool.false_or, Bool.and_eq_true] at hf
        obtain ⟨_, _, _, _, hwr⟩ := needFinish_spec _ hf.1
        rw [hRwr]
        exact hwr
  · intro _
    exact hRend
  · intro hp
    rw [hRpre, c7] at hp
    simp only [Bool.or_eq_false_iff] at hp
    rw [hRpc, c8, g3 hp.1]
    simp [hp.2]
  · intro hp
    rw [hRpre, c7] at hp
    rw [hRpc, c8]
    cases hwp : w.prefinish with
    | true =>
      rw [g4 hwp]
      simp [hwp]
    | false =>
      rw [hwp] at hp
      simp only [Bool.false_or] at hp
      rw [g3 hwp]
      simp [hwp, hp]
  · intro hf
    rw [hRfin, c6] at hf
    rw [hRpre, c7]
    cases hwf : w.finished with
    | true =>
      rw [g5 hwf]
      simp
    | false =>
      rw [hwf] at hf
      simp only [Bool.false_or, Bool.and_eq_true] at hf
      simp [hf.1]

/-- endWritable preserves the lifecycle invariant. -/
theorem endWritable_GInv (w : WritableState) (cb : Option Nat) (h : GInv w) :
    GInv (endWritable w cb) := by
  unfold endWritable
  cases cb with
  | none =>
    dsimp only
    exact endWritable_core w h _ rfl rfl (((finishMaybe_char _).1).trans rfl)
      (((finishMaybe_char _).2.2.1).trans rfl) (((finishMaybe_char _).2.2.2.1).trans rfl)
      (((finishMaybe_char _).2.2.2.2.1).trans rfl) rfl rfl
  | some i =>
    dsimp only
    split
    · exact endWritable_core w h _ rfl rfl (((finishMaybe_char _).1).trans rfl)
        (((finishMaybe_char _).2.2.1).trans rfl) (((finishMaybe_char _).2.2.2.1).trans rfl)
        (((finishMaybe_char _).2.2.2.2.1).trans rfl) rfl rfl
    · exact endWritable_core w h _ rfl rfl (((finishMaybe_char _).1).trans rfl)
        (((finishMaybe_char _).2.2.1).trans rfl) (((finishMaybe_char _).2.2.2.1).trans rfl)
        (((finishMaybe_char _).2.2.2.2.1).trans rfl) rfl rfl

/-- Tail of end: the ending-guarded endWritable call preserves the
invariant. -/
theorem endW_tail_GInv (u : WritableState) (cb : Option Nat) (h : GInv u) :
    GInv (if (!u.ending && !u.finished) = true then endWritable u cb else u) := by
  split
  · exact endWritable_GInv u cb h
  · exact h

/-- end preserves the lifecycle invariant. -/
theorem endW_GInv (w : WritableState) (chunk : Option Chunk) (e : Option Enc)
    (cb : Option Nat) (h : GInv w) : GInv (endW w chunk e cb) := by
  unfold endW
  cases chunk with
  | none =>
    dsimp only
    apply endW_tail_GInv
    split
    · apply uncork_GInv
      exact GInv_congr w _ rfl rfl rfl rfl rfl rfl rfl rfl h
    · exact h
  | some cc =>
    dsimp only
    apply endW_tail_GInv
    split
    · apply uncork_GInv
      exact GInv_congr (write w cc e (.base none)).2 _ rfl rfl rfl rfl rfl rfl rfl rfl
        (write_GInv w cc e (.base none) h)
    · exact write_GInv w cc e (.base none) h

/-- Every single operation preserves the lifecycle invariant. -/
theorem ginv_applyOp (w : WritableState) (o : Op) (h : GInv w) : GInv (applyOp w o) := by
  cases o with
  | writeOp c e cb => exact write_GInv w c e cb h
  | corkOp => exact GInv_congr w _ rfl rfl rfl rfl rfl rfl rfl rfl h
  | uncorkOp => exact uncork_GInv w h
  | endOp c e cb => exact endW_GInv w c e cb h
  | consumerDoneOp err =>
    show GInv (consumerDone w err)
    unfold consumerDone
    split
    · rename_i hwc
      exact onwrite_GInv w err hwc h
    · exact h
  | runTickOp =>
    show GInv (runTick w)
    unfold runTick
    cases w.ticks with
    | nil => exact h
    | cons t rest =>
      cases t with
      | cbT c errt =>
        exact ginv_invokeCb _ c errt (GInv_congr w _ rfl rfl rfl rfl rfl rfl rfl rfl h)
      | afterWriteT f c =>
        exact afterWrite_GInv _ f c (GInv_congr w _ rfl rfl rfl rfl rfl rfl rfl rfl h)
      | onEndNT =>
        exact endW_GInv _ none none none (GInv_congr w _ rfl rfl rfl rfl rfl rfl rfl rfl h)

/-- The lifecycle invariant holds of every state reachable from a fresh
sink by a sequence of operations. -/
theorem ginv_applyOps_aux (ops : List Op) (w : WritableState) (h : GInv w) :
    GInv (applyOps w ops) := by
  induction ops generalizing w with
  | nil => exact h
  | cons op rest ih => exact ih (applyOp w op) (ginv_applyOp w op h)

/-- The lifecycle invariant holds of every state reachable from a fresh
sink by a sequence of operations. -/
theorem ginv_applyOps (o : WOpts) (ops : List Op) : GInv (applyOps (initW o) ops) :=
  ginv_applyOps_aux ops (initW o) (ginv_init o)

end NodeStreams

namespace NodeStreams

/-- Trace effect of the finish-listener dispatch. -/
theorem listenersFold_trace (l : List Nat) (x : WritableState) :
    (l.foldl (fun w i => pushEv w (.cbCall i none)) x).trace
      = x.trace ++ l.map (fun i => Ev.cbCall i none) := by
  induction l generalizing x with
  | nil => simp
  | cons i t ih =>
    rw [List.foldl_cons, ih]
    simp [pushEv]

/-- C5: in every sink state reachable from construction by any sequence of
operations, finished = true implies the buffered request chain is empty,
no write is in flight, the accounting length is zero and the ending flag
is set; and finishMaybe — the only place that sets finished — flips it
only when needFinish holds and the pending-callback counter is zero at
that moment. -/
theorem writable_finished_invariant :
    (∀ (o : WOpts) (ops : List Op),
      (applyOps (initW o) ops).finished = true →
        (applyOps (initW o) ops).bufferedRequest = []
        ∧ (applyOps (initW o) ops).writing = false
        ∧ (applyOps (initW o) ops).length = 0
        ∧ (applyOps (initW o) ops).ending = true)
    ∧ (∀ w : WritableState, w.finished = false → (finishMaybe w).finished = true →
        needFinish w = true ∧ w.pendingcb = 0) := by
  constructor
  · intro o ops hf
    obtain ⟨g1, _, _, _, _⟩ := ginv_applyOps o ops
    obtain ⟨he, _, hl, hb, hw⟩ := g1 hf
    exact ⟨hb, hw, hl, he⟩
  · exact finishMaybe_setter

/-- Closed instance of writable_finished_invariant: the one-step end run
and a directly ending-marked sink. -/
theorem writable_finished_invariant_witness :
    ((applyOps (initW defaultOpts) [.endOp none none none]).finished = true
      ∧ ((applyOps (initW defaultOpts) [.endOp none none none]).bufferedRequest = []
        ∧ (applyOps (initW defaultOpts) [.endOp none none none]).writing = false
        ∧ (applyOps (initW defaultOpts) [.endOp none none none]).length = 0
        ∧ (applyOps (initW defaultOpts) [.endOp none none none]).ending = true))
    ∧ (({ initW defaultOpts with ending := true } : WritableState).finished = false
      ∧ (finishMaybe { initW defaultOpts with ending := true }).finished = true
      ∧ (needFinish { initW defaultOpts with ending := true } = true
        ∧ ({ initW defaultOpts with ending := true } : WritableState).pendingcb = 0)) :=
  ⟨⟨rfl, writable_finished_invariant.1 defaultOpts [.endOp none none none] rfl⟩,
   ⟨rfl, rfl, writable_finished_invariant.2 { initW defaultOpts with ending := true } rfl rfl⟩⟩

/-- C7 counterexample: with a synchronous consumer, a single write
followed by end() emits the prefinish event while one completion callback
is still outstanding (the pending-callback counter is 1, not 0) and the
sink is not finished — refuting emission exactly at the moment the
counter reaches zero, and refuting that it never fires while completion
callbacks remain outstanding. -/
theorem writable_prefinish_counterexample :
    prefC (endW (write (initW defaultOpts) (.buf [9]) none (.base (some 1))).2
        none none none).trace = 1
    ∧ (endW (write (initW defaultOpts) (.buf [9]) none (.base (some 1))).2
        none none none).pendingcb = 1
    ∧ (endW (write (initW defaultOpts) (.buf [9]) none (.base (some 1))).2
        none none none).finished = false :=
  ⟨rfl, rfl, rfl⟩

/-- C7 (amended): the prefinish signal is emitted at most once over the
lifetime of a sink, is always emitted (exactly once) by the time finished
becomes true, is emitted by finishMaybe exactly when needFinish holds with
the runtime prefinish flag still clear — regardless of the
pending-callback counter, which only decides whether the finish transition
completes in the same call — and, when the counter is zero, the prefinish
event strictly precedes the finish event in the dispatch order. -/
theorem writable_prefinish_amended :
    (∀ (o : WOpts) (ops : List Op),
      prefC (applyOps (initW o) ops).trace ≤ 1
      ∧ ((applyOps (initW o) ops).finished = true →
          (applyOps (initW o) ops).prefinish = true
          ∧ prefC (applyOps (initW o) ops).trace = 1))
    ∧ (∀ w : WritableState,
        (finishMaybe w).prefinish = (w.prefinish || needFinish w)
        ∧ prefC (finishMaybe w).trace
            = prefC w.trace + (if needFinish w && !w.prefinish then 1 else 0))
    ∧ (∀ w : WritableState, needFinish w = true → w.pendingcb = 0 → w.prefinish = false →
        (finishMaybe w).trace = w.trace ++ [Ev.prefinishEv, Ev.finishEv]
            ++ w.finishListeners.map (fun i => Ev.cbCall i none)) := by
  refine ⟨?_, ?_, ?_⟩
  · intro o ops
    obtain ⟨_, _, g3, g4, g5⟩ := ginv_applyOps o ops
    constructor
    · cases hp : (applyOps (initW o) ops).prefinish with
      | false => simp [g3 hp]
      | true => simp [g4 hp]
    · intro hf
      exact ⟨g5 hf, g4 (g5 hf)⟩
  · intro w
    exact ⟨(finishMaybe_char w).2.2.2.2.2.2.1, (finishMaybe_char w).2.2.2.2.2.2.2⟩
  · intro w hn hp hpre
    unfold finishMaybe prefinishF emitFinish
    rw [if_pos hn, if_pos (by simp [hp]), if_neg (by rw [hpre]; exact Bool.noConfusion)]
    rw [listenersFold_trace]
    simp [pushEv]

/-- Closed instance of writable_prefinish_amended. -/
theorem writable_prefinish_amended_witness :
    ((applyOps (initW defaultOpts) [Op.endOp none none none]).finished = true
      ∧ ((applyOps (initW defaultOpts) [Op.endOp none none none]).prefinish = true
        ∧ prefC (applyOps (initW defaultOpts) [Op.endOp none none none]).trace = 1))
    ∧ (needFinish { initW defaultOpts with ending := true } = true
      ∧ ({ initW defaultOpts with ending := true } : WritableState).pendingcb = 0
      ∧ ({ initW defaultOpts with ending := true } : WritableState).prefinish = false
      ∧ (finishMaybe { initW defaultOpts with ending := true }).trace
          = ({ initW defaultOpts with ending := true } : WritableState).trace
            ++ [Ev.prefinishEv, Ev.finishEv]
            ++ ({ initW defaultOpts with ending := true } : WritableState).finishListeners.map
                (fun i => Ev.cbCall i none)) :=
  ⟨⟨rfl, (writable_prefinish_amended.1 defaultOpts [Op.endOp none none none]).2 rfl⟩,
   ⟨rfl, rfl, rfl,
    writable_prefinish_amended.2.2 { initW defaultOpts with ending := true } rfl rfl rfl⟩⟩

end NodeStreams

namespace NodeStreams

/-- Listener dispatch leaves the tick queue unchanged. -/
theorem listenersFold_ticks (l : List Nat) (x : WritableState) :
    (l.foldl (fun w i => pushEv w (.cbCall i none)) x).ticks = x.ticks := by
  induction l generalizing x with
  | nil => rfl
  | cons i t ih =>
    rw [List.foldl_cons, ih]
    rfl

/-- finishMaybe leaves the tick queue unchanged. -/
theorem finishMaybe_ticks (w : WritableState) : (finishMaybe w).ticks = w.ticks := by
  unfold finishMaybe prefinishF emitFinish
  repeat' split
  all_goals first
    | rfl
    | (rw [listenersFold_ticks]
       rfl)

/-- When finishMaybe does not complete the finish transition, the
registered finish listeners are untouched. -/
theorem finishMaybe_listeners (w : WritableState)
    (hm : (finishMaybe w).finished = false) :
    (finishMaybe w).finishListeners = w.finishListeners := by
  by_cases hf : (finishMaybe w).finished = true
  · rw [hf] at hm
    exact Bool.noConfusion hm
  · unfold finishMaybe prefinishF at hm ⊢
    repeat' split
    all_goals first
      | rfl
      | (rename_i hn hp
         exfalso
         revert hm
         split
         · intro hm
           rw [show (emitFinish _).finished = true from
             (emitFinish_char _).2.2.2.2.2.1.trans rfl] at hm
           exact Bool.noConfusion hm
         · intro hm
           rw [show (emitFinish _).finished = true from
             (emitFinish_char _).2.2.2.2.2.1.trans rfl] at hm
           exact Bool.noConfusion hm)

/-- C6 counterexample: calling end() with a completion on a sink that has
already ended drops the completion.  A first end() finishes the sink and
defers its own completion (callback 5, invoked by the next tick); the
second end(callback 7) is silently discarded: after the run the sink is
finished, callback 5 fired once, callback 7 never fired, and no tick,
listener or queue entry referencing it remains — refuting invocation of
the completion in every state, in particular when ending is already
true. -/
theorem writable_end_callback_counterexample :
    (runTick (endW (endW (initW defaultOpts) none none (some 5)) none none (some 7))).finished
      = true
    ∧ cbCount (runTick (endW (endW (initW defaultOpts) none none (some 5))
        none none (some 7))).trace 7 = 0
    ∧ cbCount (runTick (endW (endW (initW defaultOpts) none none (some 5))
        none none (some 7))).trace 5 = 1
    ∧ (runTick (endW (endW (initW defaultOpts) none none (some 5)) none none (some 7))).ticks
      = []
    ∧ (runTick (endW (endW (initW defaultOpts) none none (some 5))
        none none (some 7))).finishListeners = [] :=
  ⟨rfl, rfl, rfl, rfl, rfl⟩

/-- C6 (amended): a completion passed to end() on an uncorked sink that is
neither ending nor finished is handled exactly once - deferred one tick
when the end call itself completes the finish transition, and otherwise
registered as a once listener of the finish signal; when the finish
transition later completes, the finish emission invokes every registered
listener and clears the registry; but a completion passed to end() while
ending or finished already holds is silently discarded: the call leaves
the state entirely unchanged. -/
theorem writable_end_callback_amended :
    (∀ (w : WritableState) (cb : Nat), w.corked = 0 → w.ending = false →
      w.finished = false →
      ((endW w none none (some cb)).finished = true →
        (endW w none none (some cb)).ticks = w.ticks ++ [Tick.cbT (.base (some cb)) none])
      ∧ ((endW w none none (some cb)).finished = false →
        (endW w none none (some cb)).finishListeners = w.finishListeners ++ [cb])
      ∧ (endW w none none (some cb)).ended = true)
    ∧ (∀ w : WritableState, w.finished = false → (finishMaybe w).finished = true →
        (finishMaybe w).trace
          = w.trace ++ (if w.prefinish then [] else [Ev.prefinishEv]) ++ [Ev.finishEv]
            ++ w.finishListeners.map (fun i => Ev.cbCall i none)
        ∧ (finishMaybe w).finishListeners = [])
    ∧ (∀ (w : WritableState) (cb : Nat), w.corked = 0 → w.ending = true →
        endW w none none (some cb) = w) := by
  refine ⟨?_, ?_, ?_⟩
  · intro w cb hc0 hend hfin
    have hcq : ¬(decide (0 < w.corked) = true) := by simp [hc0]
    have hgq : (!w.ending && !w.finished) = true := by simp [hend, hfin]
    unfold endW endWritable
    dsimp only
    rw [if_neg hcq, if_pos hgq]
    dsimp only
    by_cases hFf : (finishMaybe { w with ending := true }).finished = true
    · rw [if_pos hFf]
      refine ⟨?_, ?_, rfl⟩
      · intro _
        show (finishMaybe { w with ending := true }).ticks
            ++ [Tick.cbT (.base (some cb)) none] = w.ticks ++ [Tick.cbT (.base (some cb)) none]
        rw [finishMaybe_ticks]
      · intro hcontra
        have hcc : (finishMaybe { w with ending := true }).finished = false := hcontra
        rw [hFf] at hcc
        exact Bool.noConfusion hcc
    · rw [if_neg hFf]
      have hFf2 : (finishMaybe { w with ending := true }).finished = false := by
        cases hb : (finishMaybe { w with ending := true }).finished with
        | false => rfl
        | true => exact absurd hb hFf
      refine ⟨?_, ?_, rfl⟩
      · intro hcontra
        have hcc : (finishMaybe { w with ending := true }).finished = true := hcontra
        exact absurd hcc hFf
      · intro _
        show (finishMaybe { w with ending := true }).finishListeners ++ [cb]
            = w.finishListeners ++ [cb]
        rw [finishMaybe_listeners _ hFf2]
  · intro w hf0 hf1
    obtain ⟨hn, hp⟩ := finishMaybe_setter w hf0 hf1
    have hpq : (w.pendingcb == 0) = true := by simp [hp]
    unfold finishMaybe prefinishF emitFinish
    rw [if_pos hn, if_pos hpq]
    cases hpre : w.prefinish with
    | true =>
      rw [if_pos rfl]
      dsimp only
      constructor
      · rw [listenersFold_trace]
        simp [pushEv]
      · rfl
    | false =>
      rw [if_neg Bool.false_ne_true]
      dsimp only
      constructor
      · rw [listenersFold_trace]
        simp [pushEv]
      · rfl
  · intro w cb hc0 hend
    have hcq : ¬(decide (0 < w.corked) = true) := by simp [hc0]
    have hgq : ¬((!w.ending && !w.finished) = true) := by simp [hend]
    unfold endW
    dsimp only
    rw [if_neg hcq, if_neg hgq]

/-- Closed instance of writable_end_callback_amended. -/
theorem writable_end_callback_amended_witness :
    (((endW (initW defaultOpts) none none (some 4)).finished = true →
        (endW (initW defaultOpts) none none (some 4)).ticks
          = (initW defaultOpts).ticks ++ [Tick.cbT (.base (some 4)) none])
      ∧ ((endW (initW defaultOpts) none none (some 4)).finished = false →
        (endW (initW defaultOpts) none none (some 4)).finishListeners
          = (initW defaultOpts).finishListeners ++ [4])
      ∧ (endW (initW defaultOpts) none none (some 4)).ended = true)
    ∧ ((finishMaybe { initW defaultOpts with ending := true }).trace
        = ({ initW defaultOpts with ending := true } : WritableState).trace
          ++ (if ({ initW defaultOpts with ending := true } : WritableState).prefinish
              then [] else [Ev.prefinishEv]) ++ [Ev.finishEv]
          ++ ({ initW defaultOpts with ending := true } : WritableState).finishListeners.map
              (fun i => Ev.cbCall i none)
      ∧ (finishMaybe { initW defaultOpts with ending := true }).finishListeners = [])
    ∧ endW (endW (initW defaultOpts) none none none) none none (some 9)
        = endW (initW defaultOpts) none none none :=
  ⟨writable_end_callback_amended.1 (initW defaultOpts) 4 rfl rfl rfl,
   writable_end_callback_amended.2.1 { initW defaultOpts with ending := true } rfl rfl,
   writable_end_callback_amended.2.2 (endW (initW defaultOpts) none none none) 9 rfl rfl⟩

end NodeStreams

namespace NodeStreams

/-- With no final chunk, no pending cork and the stream neither ending nor
finished, end marks both ending and ended. -/
theorem endW_none_flags (w : WritableState) (h0 : w.corked = 0)
    (h1 : w.ending = false) (h2 : w.finished = false) :
    (endW w none none none).ended = true ∧ (endW w none none none).ending = true := by
  have hcq : ¬(decide (0 < w.corked) = true) := by simp [h0]
  have hgq : (!w.ending && !w.finished) = true := by simp [h1, h2]
  unfold endW
  dsimp only
  rw [if_neg hcq, if_pos hgq]
  unfold endWritable
  dsimp only
  exact ⟨rfl, ((finishMaybe_char _).1).trans rfl⟩

/-- C8: on a Duplex with half open disabled, the readable end event defers
the automatic end of the writable side to the next scheduler tick - onend
only enqueues the onEndNT task and changes nothing else synchronously -
and running that tick ends the writable side without any explicit end
call; with half open allowed (the default), or with the writable side
already ended, onend leaves the state untouched. -/
theorem duplex_halfopen_deferred_end :
    (∀ d : DuplexS, d.allowHalfOpen = false → d.ws.ended = false →
      (onend d).ws.ticks = d.ws.ticks ++ [Tick.onEndNT]
      ∧ (onend d).allowHalfOpen = d.allowHalfOpen
      ∧ (onend d).ws.trace = d.ws.trace
      ∧ (onend d).ws.ended = false
      ∧ (onend d).ws.ending = d.ws.ending
      ∧ (onend d).ws.finished = d.ws.finished
      ∧ (onend d).ws.bufferedRequest = d.ws.bufferedRequest)
    ∧ (∀ d : DuplexS, d.allowHalfOpen = false → d.ws.ended = false →
        d.ws.ticks = [] → d.ws.corked = 0 → d.ws.ending = false →
        d.ws.finished = false →
        (runTickD (onend d)).ws.ended = true
        ∧ (runTickD (onend d)).ws.ending = true)
    ∧ (∀ d : DuplexS, d.allowHalfOpen = true → onend d = d)
    ∧ (∀ d : DuplexS, d.ws.ended = true → onend d = d) := by
  refine ⟨?_, ?_, ?_, ?_⟩
  · intro d h1 h2
    have hc : ¬((d.allowHalfOpen || d.ws.ended) = true) := by simp [h1, h2]
    unfold onend
    rw [if_neg hc]
    exact ⟨rfl, rfl, rfl, h2, rfl, rfl, rfl⟩
  · intro d h1 h2 h3 h4 h5 h6
    have hc : ¬((d.allowHalfOpen || d.ws.ended) = true) := by simp [h1, h2]
    have hws : onend d = { d with ws := pushTick d.ws .onEndNT } := by
      unfold onend
      rw [if_neg hc]
    rw [hws]
    unfold runTickD runTick pushTick
    dsimp only
    rw [h3]
    simp only [List.nil_append]
    exact endW_none_flags { d.ws with ticks := ([] : List Tick) } h4 h5 h6
  · intro d h1
    unfold onend
    rw [if_pos (by simp [h1])]
  · intro d h1
    unfold onend
    rw [if_pos (by simp [h1])]

/-- Closed instance of duplex_halfopen_deferred_end. -/
theorem duplex_halfopen_deferred_end_witness :
    ((onend ⟨false, initW defaultOpts⟩).ws.ticks
        = (initW defaultOpts).ticks ++ [Tick.onEndNT]
      ∧ (onend ⟨false, initW defaultOpts⟩).allowHalfOpen = false
      ∧ (onend ⟨false, initW defaultOpts⟩).ws.trace = (initW defaultOpts).trace
      ∧ (onend ⟨false, initW defaultOpts⟩).ws.ended = false
      ∧ (onend ⟨false, initW defaultOpts⟩).ws.ending = (initW defaultOpts).ending
      ∧ (onend ⟨false, initW defaultOpts⟩).ws.finished = (initW defaultOpts).finished
      ∧ (onend ⟨false, initW defaultOpts⟩).ws.bufferedRequest
          = (initW defaultOpts).bufferedRequest)
    ∧ ((runTickD (onend ⟨false, initW defaultOpts⟩)).ws.ended = true
      ∧ (runTickD (onend ⟨false, initW defaultOpts⟩)).ws.ending = true)
    ∧ onend ⟨true, initW defaultOpts⟩ = ⟨true, initW defaultOpts⟩
    ∧ onend ⟨false, { initW defaultOpts with ended := true }⟩
        = ⟨false, { initW defaultOpts with ended := true }⟩ :=
  ⟨duplex_halfopen_deferred_end.1 ⟨false, initW defaultOpts⟩ rfl rfl,
   duplex_halfopen_deferred_end.2.1 ⟨false, initW defaultOpts⟩ rfl rfl rfl rfl rfl rfl,
   duplex_halfopen_deferred_end.2.2.1 ⟨true, initW defaultOpts⟩ rfl,
   duplex_halfopen_deferred_end.2.2.2 ⟨false, { initW defaultOpts with ended := true }⟩ rfl⟩

end NodeStreams

namespace NodeStreams

/-- Chunk validation accepts every byte buffer. -/
theorem chunkInvalid_buf (st : ReadableState) (bs : List Nat) :
    chunkInvalid st (.buf bs) = none := by
  unfold chunkInvalid
  split
  · rfl
  · rfl

/-- C9: push of a non-nil chunk of positive length after the end-of-data
marker was accepted signals the push-after-EOF error and changes nothing
else - in particular nothing is buffered; unshift of such a chunk is
rejected with the unshift-after-end error when the terminal end signal has
already been emitted; and an unshift after ended but before the end
event, outside flowing mode, is accepted without any error signal (the
accepting branch of this copy also buffers nothing, its body being
empty). -/
theorem readable_push_after_eof :
    (∀ (st : ReadableState) (bs : List Nat), st.ended = true → bs ≠ [] →
      readableAddChunk st (.buf bs) none false
        = pushREv st (.errorEv .pushAfterEOF))
    ∧ (∀ (st : ReadableState) (bs : List Nat), st.endEmitted = true → bs ≠ [] →
      unshiftR st (.buf bs) = pushREv st (.errorEv .unshiftAfterEnd))
    ∧ (∀ (st : ReadableState) (bs : List Nat), st.ended = true →
        st.endEmitted = false → bs ≠ [] → st.flowing ≠ some true →
      unshiftR st (.buf bs) = st) := by
  refine ⟨?_, ?_, ?_⟩
  · intro st bs he hbs
    have hlen : 0 < chunkLen (Chunk.buf bs) := by
      simpa [chunkLen] using List.length_pos.mpr hbs
    unfold readableAddChunk
    rw [chunkInvalid_buf]
    simp [he, hlen]
  · intro st bs hee hbs
    have hlen : 0 < chunkLen (Chunk.buf bs) := by
      simpa [chunkLen] using List.length_pos.mpr hbs
    unfold unshiftR readableAddChunk
    rw [chunkInvalid_buf]
    simp [hee, hlen]
  · intro st bs he hee hbs hflow
    have hlen : 0 < chunkLen (Chunk.buf bs) := by
      simpa [chunkLen] using List.length_pos.mpr hbs
    have hfb : (st.flowing == some true) = false := by
      simp [hflow]
    unfold unshiftR readableAddChunk
    rw [chunkInvalid_buf]
    simp [hee, hlen, hfb]

/-- Closed instance of readable_push_after_eof. -/
theorem readable_push_after_eof_witness :
    (readableAddChunk { initR defaultROpts with ended := true } (.buf [1]) none false
        = pushREv { initR defaultROpts with ended := true } (.errorEv .pushAfterEOF))
    ∧ (unshiftR { initR defaultROpts with ended := true, endEmitted := true } (.buf [2])
        = pushREv { initR defaultROpts with ended := true, endEmitted := true }
            (.errorEv .unshiftAfterEnd))
    ∧ unshiftR { initR defaultROpts with ended := true } (.buf [3])
        = { initR defaultROpts with ended := true } :=
  ⟨readable_push_after_eof.1 { initR defaultROpts with ended := true } [1] rfl (by decide),
   readable_push_after_eof.2.1
     { initR defaultROpts with ended := true, endEmitted := true } [2] rfl (by decide),
   readable_push_after_eof.2.2 { initR defaultROpts with ended := true } [3] rfl rfl
     (by decide) (by decide)⟩

/-- C10: the internal-consistency checks of the transform finaliser are
half dead.  The pending-write-length check is effective: done with a
nonzero writable accounting length throws the fatal length error.  The
in-flight check is not: done reads the never-assigned lowercase
transforming property, so a done arriving while a transform is in flight
(Transforming = true) with zero pending length completes normally and
seals the readable half with the end-of-data marker instead of raising
the fatal in-flight error; and the flush path feeds the flush result to
done after recording exactly one flush invocation. -/
theorem transform_done_transforming_dead :
    (∀ (t : TransformS) (data : Option Chunk), t.wsLength ≠ 0 →
      (doneT t none data).1 = .threw .doneWsLength)
    ∧ (∀ t : TransformS, t.wsLength = 0 → t.Transforming = true →
      ∀ d : Chunk,
        doneT t none (some d)
            = (.ok, { t with pushed := t.pushed ++ [some d] ++ [none] })
        ∧ doneT t none none = (.ok, { t with pushed := t.pushed ++ [none] }))
    ∧ (∀ (t : TransformS) (r : Option ErrMsg × Option Chunk),
        prefinishListener t (some r) = doneT (pushTEv t .flushCall) r.1 r.2) := by
  refine ⟨?_, ?_, ?_⟩
  · intro t data h
    cases data with
    | none =>
      unfold doneT
      dsimp only
      rw [if_pos h]
    | some d =>
      unfold doneT
      dsimp only
      rw [if_pos h]
  · intro t h0 _h1 d
    have hn : ¬(t.wsLength ≠ 0) := by simp [h0]
    constructor
    · unfold doneT tsTransformingRead
      dsimp only
      rw [if_neg hn, if_neg Bool.false_ne_true]
    · unfold doneT tsTransformingRead
      dsimp only
      rw [if_neg hn, if_neg Bool.false_ne_true]
  · intro t r
    rfl

/-- Closed instance of transform_done_transforming_dead: a done arriving
with a transform in flight and zero pending length completes normally. -/
theorem transform_done_transforming_dead_witness :
    ((doneT (⟨3, false, [], []⟩ : TransformS) none none).1 = .threw .doneWsLength)
    ∧ (doneT (⟨0, true, [], []⟩ : TransformS) none (some (.objVal 7))
        = (.ok, { (⟨0, true, [], []⟩ : TransformS) with
            pushed := ([] : List (Option Chunk)) ++ [some (.objVal 7)] ++ [none] })
      ∧ doneT (⟨0, true, [], []⟩ : TransformS) none none
        = (.ok, { (⟨0, true, [], []⟩ : TransformS) with
            pushed := ([] : List (Option Chunk)) ++ [none] }))
    ∧ prefinishListener (⟨0, false, [], []⟩ : TransformS) (some (none, some (.objVal 8)))
        = doneT (pushTEv (⟨0, false, [], []⟩ : TransformS) .flushCall) none
            (some (.objVal 8)) :=
  ⟨transform_done_transforming_dead.1 ⟨3, false, [], []⟩ none (by decide),
   transform_done_transforming_dead.2.1 ⟨0, true, [], []⟩ rfl rfl (.objVal 7),
   transform_done_transforming_dead.2.2 ⟨0, false, [], []⟩ (none, some (.objVal 8))⟩

end NodeStreams
